import Mathlib

/-!
Verification development for the swarmjs turn-execution engine
(repository `ColeMurray/swarmjs`).

The development shallowly embeds the current revision of the engine:
`src/swarm/core.ts` (the variant with async tool handling and the
observability sink), `src/swarm/util.ts` (the variant with the recursive
schema validator) and `src/swarm/types.ts`.

Modelling conventions, used throughout:
* JavaScript runtime values are modelled by `JVal` below; JS objects are
  association lists in insertion order, and numbers are modelled at integer
  precision (no claim under study involves fractional values).
* Property assignment `o[k] = v` keeps the position of an existing key and
  appends a fresh key, as JS insertion-order semantics dictate (`setKey`).
* A thrown JS exception is modelled by `Except.error` carrying the
  exception's `message` string.
-/

set_option autoImplicit false

namespace Swarm

/-- Model of a JSON-ish JavaScript runtime value: `obj` keeps fields in
insertion order, as `Object.entries` / `for ... in` enumeration does. -/
inductive JVal where
  | str : String → JVal
  | num : Int → JVal
  | bool : Bool → JVal
  | null : JVal
  | arr : List JVal → JVal
  | obj : List (String × JVal) → JVal
  deriving Repr

/-- Field lookup `o[k]` on a JS object (first binding wins; our `setKey`
never creates duplicate keys, so assoc lists stay functional). -/
def getKey (o : List (String × JVal)) (k : String) : Option JVal :=
  match o with
  | [] => none
  | (k', v) :: rest => if k' = k then some v else getKey rest k

/-- Property assignment `o[k] = v`: update in place if the key exists
(keeping its position), append otherwise — JS insertion-order semantics. -/
def setKey (o : List (String × JVal)) (k : String) (v : JVal) : List (String × JVal) :=
  match o with
  | [] => [(k, v)]
  | (k', v') :: rest => if k' = k then (k, v) :: rest else (k', v') :: setKey rest k v

/-- `Object.assign(target, source)`: copy every source field into the target,
in source enumeration order; source fields win on colliding keys. -/
def objectAssign (target source : List (String × JVal)) : List (String × JVal) :=
  source.foldl (fun t kv => setKey t kv.1 kv.2) target

/-! ### Delta Merger (`src/swarm/util.ts`: `mergeFields`, `mergeChunk`) -/

mutual

/-- `mergeFields(target, source)` from `util.ts`, walking the source's
fields in enumeration order; the body of its `for ... in` loop is factored
out as `mergeValueInto`. -/
def mergeFields (target : List (String × JVal)) (source : List (String × JVal)) :
    List (String × JVal) :=
  match source with
  | [] => target
  | (k, v) :: rest => mergeFields (mergeValueInto target k v) rest

/-- One iteration of `mergeFields`' loop: an array value replaces the
target's field wholesale; a string value is concatenated onto the target's
field (which is first reset to `""` unless it is already a string); a
non-null object value is merged recursively (the target's field is first
reset to `\x7b\x7d` unless it is a truthy object); all other values
(numbers, booleans, `null`) are skipped.

One unreachable-in-source edge is simplified: when the target's field holds
an *array* and the source's field an object, JS would merge string-keyed
fields into the array object in place; `JVal.arr` cannot carry string keys,
so that target is treated like a fresh object.  In the engine `mergeFields`
only ever meets string- and null-valued fields (`content`, `function_call`,
tool-call `function` fragments), so the case never arises. -/
def mergeValueInto (target : List (String × JVal)) (k : String) (v : JVal) :
    List (String × JVal) :=
  match v with
  | .arr xs => setKey target k (.arr xs)
  | .str s =>
    match getKey target k with
    | some (.str t) => setKey target k (.str (t ++ s))
    | _ => setKey target k (.str s)
  | .obj sf =>
    match getKey target k with
    | some (.obj tf) => setKey target k (.obj (mergeFields tf sf))
    | _ => setKey target k (.obj (mergeFields [] sf))
  | _ => target

end

/-- A `function` fragment of a streamed tool-call delta: optional name
fragment and optional argument-string fragment. -/
structure FnDelta where
  name? : Option String
  arguments? : Option String
  deriving Repr, DecidableEq

/-- The JS object carried by a `function` fragment, in the backend's field
order (`name` before `arguments`). -/
def FnDelta.toObj (f : FnDelta) : List (String × JVal) :=
  (match f.name? with
   | some n => [("name", JVal.str n)]
   | none => []) ++
  (match f.arguments? with
   | some a => [("arguments", JVal.str a)]
   | none => [])

/-- One indexed tool-call fragment of a streamed delta
(`delta.tool_calls[j]`): a numeric `index` plus optional `id`, `type` and
`function` fields. -/
structure ToolCallDelta where
  index : Nat
  id? : Option String
  type? : Option String
  function? : Option FnDelta
  deriving Repr, DecidableEq

/-- Accumulated tool-call slots: the JS code stores slots in an array
indexed by the fragment's numeric `index` (possibly sparsely); we model that
array as an index-keyed map kept in ascending index order, which is exactly
the order `Object.values` later enumerates. -/
def lookupIdx (m : List (Nat × List (String × JVal))) (i : Nat) :
    Option (List (String × JVal)) :=
  match m with
  | [] => none
  | (j, s) :: rest => if j = i then some s else lookupIdx rest i

/-- Store a slot at a numeric index, keeping the map in ascending index
order (mirroring JS array element order). -/
def insertIdx (m : List (Nat × List (String × JVal))) (i : Nat)
    (s : List (String × JVal)) : List (Nat × List (String × JVal)) :=
  match m with
  | [] => [(i, s)]
  | (j, s') :: rest =>
    if j = i then (i, s) :: rest
    else if i < j then (i, s) :: (j, s') :: rest
    else (j, s') :: insertIdx rest i s

/-- The per-fragment slot update of `mergeChunk`: overwrite `id` and `type`
whenever the fragment carries them, and merge a carried `function` fragment
into the slot's `function` object via `mergeFields` (creating the object if
the slot has none). -/
def applyToSlot (slot : List (String × JVal)) (dtc : ToolCallDelta) :
    List (String × JVal) :=
  let slot :=
    match dtc.id? with
    | some s => setKey slot "id" (.str s)
    | none => slot
  let slot :=
    match dtc.type? with
    | some s => setKey slot "type" (.str s)
    | none => slot
  match dtc.function? with
  | some f =>
    let fobj :=
      match getKey slot "function" with
      | some (.obj o) => o
      | _ => []
    setKey slot "function" (.obj (mergeFields fobj f.toObj))
  | none => slot

/-- `mergeChunk`'s handling of one element of `delta.tool_calls`: ensure the
slot at the fragment's index exists (`\x7b\x7d` if fresh) and apply the
fragment to it. -/
def applyToolCallDelta (tcs : List (Nat × List (String × JVal)))
    (dtc : ToolCallDelta) : List (Nat × List (String × JVal)) :=
  insertIdx tcs dtc.index (applyToSlot ((lookupIdx tcs dtc.index).getD []) dtc)

/-- A streamed completion delta: an optional `role` (which `mergeChunk`
deletes before merging), optional indexed tool-call fragments, and the
remaining fields (e.g. a `content` fragment) as a JS object. -/
structure Delta where
  role? : Option String
  tool_calls? : Option (List ToolCallDelta)
  fields : List (String × JVal)
  deriving Repr

/-- The in-progress assistant message accumulated by `runAndStream`: its
ordinary fields, plus the tool-call accumulator.  `tool_calls = none` models
the initial non-array placeholder `\x7b\x7d`; the first delta carrying
`tool_calls` replaces it by an (empty) array. -/
structure MsgAcc where
  fields : List (String × JVal)
  tool_calls : Option (List (Nat × List (String × JVal)))
  deriving Repr

/-- `mergeChunk(finalResponse, delta)` from `util.ts`: drop the delta's
`role`; if the delta carries `tool_calls`, make sure the accumulator's
`tool_calls` is an array and merge each indexed fragment into its slot;
finally merge the delta's remaining fields (with `tool_calls` removed)
via `mergeFields`. -/
def mergeChunk (finalResponse : MsgAcc) (delta : Delta) : MsgAcc :=
  let tool_calls :=
    match delta.tool_calls? with
    | some dtcs => some (dtcs.foldl applyToolCallDelta (finalResponse.tool_calls.getD []))
    | none => finalResponse.tool_calls
  { fields := mergeFields finalResponse.fields delta.fields
    tool_calls := tool_calls }

/-! ### Schema Codec (`src/swarm/types.ts`: `ParameterSchema`;
`src/swarm/util.ts`: `validateValue`, `validateArguments`) -/

/-- `ParameterSchema` from `types.ts`: a recursive schema with a type name,
required flag, description, optional array-item schema, optional object
property schemas, and an optional enumeration of legal values. -/
inductive ParameterSchema where
  | mk (type : String) (required : Bool) (description : String)
       (items : Option ParameterSchema)
       (properties : Option (List (String × ParameterSchema)))
       (enum : Option (List JVal))

def ParameterSchema.type : ParameterSchema → String
  | .mk t _ _ _ _ _ => t

def ParameterSchema.required : ParameterSchema → Bool
  | .mk _ r _ _ _ _ => r

def ParameterSchema.description : ParameterSchema → String
  | .mk _ _ d _ _ _ => d

def ParameterSchema.items : ParameterSchema → Option ParameterSchema
  | .mk _ _ _ i _ _ => i

def ParameterSchema.properties : ParameterSchema → Option (List (String × ParameterSchema))
  | .mk _ _ _ _ p _ => p

def ParameterSchema.enum : ParameterSchema → Option (List JVal)
  | .mk _ _ _ _ _ e => e

/-- `FunctionDescriptor` from `types.ts`. -/
structure FunctionDescriptor where
  name : String
  description : String
  parameters : List (String × ParameterSchema)

/-- ASCII lower-casing of one character, as
`String.prototype.toLowerCase` acts on the (ASCII) schema type names. -/
def charToLower (c : Char) : Char :=
  if 65 ≤ c.toNat ∧ c.toNat ≤ 90 then Char.ofNat (c.toNat + 32) else c

/-- `param.type.toLowerCase()` (ASCII; schema type names such as
`"object"`, `"Number"` contain no characters outside ASCII). -/
def strToLower (s : String) : String :=
  String.mk (s.data.map charToLower)

/-- The `actualType` computation of `validateValue`:
`Array.isArray(value) ? \x27array\x27 : typeof value` (note `typeof null`
is `"object"` in JS). -/
def jsActualType : JVal → String
  | .arr _ => "array"
  | .str _ => "string"
  | .num _ => "number"
  | .bool _ => "boolean"
  | .null => "object"
  | .obj _ => "object"

/-- JS strict equality `===` as used by `Array.prototype.includes` in the
enum check: structural on scalar values; arrays/objects compare by reference
in JS, and a freshly parsed value is never reference-identical to a schema
constant, so those compare unequal here. -/
def jvalEqb : JVal → JVal → Bool
  | .str a, .str b => a == b
  | .num a, .num b => a == b
  | .bool a, .bool b => a == b
  | .null, .null => true
  | _, _ => false

/-- JS template-literal stringification of a value, for error messages:
arrays join their elements with `","`, plain objects print as
`[object Object]`. -/
def jvalToString : JVal → String
  | .str s => s
  | .num n => toString n
  | .bool b => if b then "true" else "false"
  | .null => "null"
  | .arr xs => String.intercalate "," (xs.attach.map fun x => jvalToString x.1)
  | .obj _ => "[object Object]"
decreasing_by
  simp_wf
  have := List.sizeOf_lt_of_mem x.2
  omega

/-- The trailing enum check and return of `validateValue`: error when an
enum is declared and the value is not (strictly) among its members. -/
def enumTail (value : JVal) (p : ParameterSchema) (path : String) : Except String JVal :=
  match p.enum with
  | some vs =>
    if vs.any (fun e => jvalEqb e value) then .ok value
    else .error ("Invalid value at \x27" ++ path ++ "\x27: expected one of [" ++
      String.intercalate ", " (vs.map jvalToString) ++ "], got \x27" ++
      jvalToString value ++ "\x27")
  | none => .ok value

/-- The required-property loop of `validateValue`'s object branch: walk the
declared properties in order and fail at the first required one missing
from the value. -/
def checkRequired (props : List (String × ParameterSchema))
    (fields : List (String × JVal)) (path : String) : Except String Unit :=
  match props with
  | [] => .ok ()
  | (k, s) :: rest =>
    if s.required && (getKey fields k).isNone then
      .error ("Missing required property at \x27" ++
        (if path = "" then "" else path ++ ".") ++ k ++ "\x27")
    else checkRequired rest fields path

/-- Property-schema lookup `param.properties[key]`. -/
def getProp (props : List (String × ParameterSchema)) (k : String) :
    Option ParameterSchema :=
  match props with
  | [] => none
  | (k', s) :: rest => if k' = k then some s else getProp rest k

mutual

/-- `validateValue(value, param, path)` from `util.ts`: check the declared
type name (lower-cased) against the JS runtime type; recurse into array
items (paths `path[i]`) and object properties (paths `path.key`), checking
required properties first and passing unknown keys through unvalidated;
finally check a declared enum.  On success the object branch rebuilds the
object from the value's own entries in order. -/
def validateValue (value : JVal) (p : ParameterSchema) (path : String) :
    Except String JVal :=
  let expectedType := strToLower p.type
  let actualType := jsActualType value
  if expectedType = actualType then
    match value with
    | .arr xs =>
      match p.items with
      | some it => (validateItems xs it path 0).map JVal.arr
      | none => enumTail value p path
    | .obj fields =>
      match p.properties with
      | some props =>
        match checkRequired props fields path with
        | .error e => .error e
        | .ok _ => (validateProps props fields path).map JVal.obj
      | none => enumTail value p path
    | .null =>
      match p.properties with
      | some props =>
        -- `typeof null` is `"object"`, so a null value reaches the object
        -- branch, where JS throws a TypeError when it inspects the null
        -- (unreachable from the dispatcher, whose arguments are parsed
        -- objects); modelled by the corresponding engine messages.
        match props.find? (fun kv => kv.2.required) with
        | some kv => .error ("Cannot use \x27in\x27 operator to search for \x27" ++
            kv.1 ++ "\x27 in null")
        | none => .error "Cannot convert undefined or null to object"
      | none => enumTail value p path
    | _ => enumTail value p path
  else
    .error ("Invalid type at \x27" ++ path ++ "\x27: expected \x27" ++ expectedType ++
      "\x27, got \x27" ++ actualType ++ "\x27")

/-- The element loop of `validateValue`'s array branch
(`value.map((item, index) => ...)`). -/
def validateItems (xs : List JVal) (it : ParameterSchema) (path : String)
    (i : Nat) : Except String (List JVal) :=
  match xs with
  | [] => .ok []
  | x :: rest =>
    match validateValue x it (path ++ "[" ++ toString i ++ "]") with
    | .error e => .error e
    | .ok v =>
      match validateItems rest it path (i + 1) with
      | .error e => .error e
      | .ok vs => .ok (v :: vs)

/-- The property loop of `validateValue`'s object branch
(`for (const [key, propValue] of Object.entries(value))`): properties with
a schema are validated recursively, unknown keys pass through. -/
def validateProps (props : List (String × ParameterSchema))
    (fields : List (String × JVal)) (path : String) :
    Except String (List (String × JVal)) :=
  match fields with
  | [] => .ok []
  | (k, v) :: rest =>
    match
      match getProp props k with
      | none => Except.ok v
      | some ps => validateValue v ps (if path = "" then k else path ++ "." ++ k)
    with
    | .error e => .error e
    | .ok w =>
      match validateProps props rest path with
      | .error e => .error e
      | .ok ws => .ok ((k, w) :: ws)

end

/-- `validateArguments(args, descriptor)` from `util.ts`: validate against a
synthetic root object schema made of the descriptor's parameters, wrapping
any failure with the function's name. -/
def validateArguments (args : JVal) (descriptor : FunctionDescriptor) :
    Except String JVal :=
  let schema : ParameterSchema :=
    .mk "object" false "Root validation schema" none (some descriptor.parameters) none
  match validateValue args schema "" with
  | .ok v => .ok v
  | .error e =>
    .error ("Validation failed for function \x27" ++ descriptor.name ++ "\x27: " ++ e)

/-! ### Agents, tool functions and results (`src/swarm/types.ts`)

`Agent`, `AgentFunction`, the values a tool body may return, and `Result`
are mutually recursive (a tool may return an `Agent`, whose functions may
in turn return agents), so they form one mutual inductive block with
explicit field accessors. -/

mutual

/-- `Agent` from `types.ts`: name, model, instructions, registered
functions, optional tool-choice policy, parallel-tool-calls flag.
Instructions are a pure function of the shared context (a constant
function models the static-string form). -/
inductive Agent where
  | mk (name : String) (model : String)
       (instructions : List (String × JVal) → String)
       (functions : List AgentFunction)
       (tool_choice : Option String)
       (parallel_tool_calls : Bool)

/-- `AgentFunction` from `types.ts`: a registered tool.  `wantsCtx` models
the dispatcher's reflection test
`func.func.length > 0 && func.toString().includes(\x27context_variables\x27)`
(source-text inspection is not representable directly, so the outcome of
that test is carried as a field).  The body returns `Except`: `.error m`
models a throw/rejection with message `m`, covering both sync throws and
rejected promises (the dispatcher awaits `Promise.resolve(...)`). -/
inductive AgentFunction where
  | mk (name : String)
       (func : JVal → Except String FuncRet)
       (wantsCtx : Bool)
       (descriptor : FunctionDescriptor)

/-- The runtime shape of a tool body's return value, as discriminated by
`handleFunctionResult`: a `Result` instance, an `Agent` instance, or any
other value coerced by `String(...)` (modelled by the string it coerces to;
the unreachable coercion-failure branch concerns exotic objects outside
this model). -/
inductive FuncRet where
  | result : Result → FuncRet
  | agent : Agent → FuncRet
  | str : String → FuncRet

/-- `Result` from `types.ts`: a value string, an optional handoff agent and
context-variable updates. -/
inductive Result where
  | mk (value : String) (agent : Option Agent)
       (context_variables : List (String × JVal))

end

def Agent.name : Agent → String
  | .mk n _ _ _ _ _ => n

def Agent.model : Agent → String
  | .mk _ m _ _ _ _ => m

def Agent.instructions : Agent → (List (String × JVal) → String)
  | .mk _ _ i _ _ _ => i

def Agent.functions : Agent → List AgentFunction
  | .mk _ _ _ fs _ _ => fs

def Agent.tool_choice : Agent → Option String
  | .mk _ _ _ _ tc _ => tc

def Agent.parallel_tool_calls : Agent → Bool
  | .mk _ _ _ _ _ p => p

def AgentFunction.name : AgentFunction → String
  | .mk n _ _ _ => n

def AgentFunction.func : AgentFunction → (JVal → Except String FuncRet)
  | .mk _ f _ _ => f

def AgentFunction.wantsCtx : AgentFunction → Bool
  | .mk _ _ w _ => w

def AgentFunction.descriptor : AgentFunction → FunctionDescriptor
  | .mk _ _ _ d => d

def Result.value : Result → String
  | .mk v _ _ => v

def Result.agent : Result → Option Agent
  | .mk _ a _ => a

def Result.context_variables : Result → List (String × JVal)
  | .mk _ _ c => c

/-! ### JSON stringification of the handoff value -/

/-- Hexadecimal digit for `JSON.stringify`'s control-character escapes. -/
def hexDigit (n : Nat) : String :=
  if n < 10 then toString n
  else if n = 10 then "a" else if n = 11 then "b" else if n = 12 then "c"
  else if n = 13 then "d" else if n = 14 then "e" else "f"

/-- `JSON.stringify` escaping of one character inside a string literal. -/
def jsonEscapeChar (c : Char) : String :=
  if c = '"' then "\\\""
  else if c = '\\' then "\\\\"
  else if c = '\x08' then "\\b"
  else if c = '\t' then "\\t"
  else if c = '\n' then "\\n"
  else if c = '\x0c' then "\\f"
  else if c = '\r' then "\\r"
  else if c.toNat < 0x20 then
    "\\u00" ++ hexDigit (c.toNat / 16) ++ hexDigit (c.toNat % 16)
  else String.singleton c

/-- `JSON.stringify` of a string value. -/
def jsonString (s : String) : String :=
  "\"" ++ String.join (s.toList.map jsonEscapeChar) ++ "\""

/-- `JSON.stringify(\x7b assistant: name \x7d)`, the value of the `Result`
wrapped around an agent returned by a tool. -/
def jsonAssistant (name : String) : String :=
  "\x7b\"assistant\":" ++ jsonString name ++ "\x7d"

/-! ### Tool Dispatcher (`src/swarm/core.ts`: `handleFunctionResult`,
`handleToolCalls`) -/

/-- `handleFunctionResult(result, debug)` from `core.ts`: a `Result` passes
through verbatim; an `Agent` is wrapped as a handoff `Result` whose value
is `JSON.stringify(\x7b assistant: agent.name \x7d)`; anything else is
coerced to a string `Result`. -/
def handleFunctionResult (result : FuncRet) : Result :=
  match result with
  | .result r => r
  | .agent a => .mk (jsonAssistant a.name) (some a) []
  | .str s => .mk s none []

/-- One requested tool call as consumed by `handleToolCalls`
(`tool_call.id`, `tool_call.function.name`, `tool_call.function.arguments`).
The argument payload is carried already parsed
(`JSON.parse(tool_call.function.arguments)` is modelled as given; an
unparsable payload aborts the dispatcher in the source and is outside the
claims under study). -/
structure ToolCall where
  id : String
  name : String
  arguments : JVal

/-- One message record appended by the engine.  Assistant messages carry
`sender` and optional `tool_calls`; tool-result messages carry
`tool_call_id` and `tool_name`. -/
structure Msg where
  role : String
  content : JVal
  sender : Option String
  tool_call_id : Option String
  tool_name : Option String
  tool_calls : Option (List ToolCall)

/-- The tool-result message pushed for one dispatched call. -/
def mkToolMsg (id name content : String) : Msg :=
  { role := "tool", content := .str content, sender := none
    tool_call_id := some id, tool_name := some name, tool_calls := none }

/-- The `Response` accumulator built by `handleToolCalls`
(`new Response(\x7b messages: [], agent: undefined, context_variables: \x7b\x7d \x7d)`);
the `items` field of the `Response` class is never populated by the engine
and is omitted. -/
structure ResponseAcc where
  messages : List Msg
  agent : Option Agent
  context_variables : List (String × JVal)

/-- The reserved shared-context parameter name (`CTX_VARS_NAME`). -/
def ctxVarsName : String := "context_variables"

/-- Assignment into the function map (same insertion-order semantics as
`setKey`). -/
def setKeyFn (m : List (String × AgentFunction)) (k : String)
    (f : AgentFunction) : List (String × AgentFunction) :=
  match m with
  | [] => [(k, f)]
  | (k', f') :: rest => if k' = k then (k, f) :: rest else (k', f') :: setKeyFn rest k f

/-- The function map built at the top of `handleToolCalls`
(`function_map[func.name] = func`, later registrations overriding). -/
def buildFunctionMap (functions : List AgentFunction) :
    List (String × AgentFunction) :=
  functions.foldl (fun m f => setKeyFn m f.name f) []

/-- Lookup in the function map. -/
def getFn (m : List (String × AgentFunction)) (k : String) :
    Option AgentFunction :=
  match m with
  | [] => none
  | (k', f) :: rest => if k' = k then some f else getFn rest k

/-- The shared-context injection step of `handleToolCalls`:
`args[CTX_VARS_NAME] = context_variables` when the reflection test on the
function's source asks for it (assignment on a non-object parse result is a
silent no-op in non-strict JS and unreachable from well-formed payloads). -/
def injectCtx (func : AgentFunction) (context_variables : List (String × JVal))
    (args : JVal) : JVal :=
  if func.wantsCtx then
    match args with
    | .obj o => .obj (setKey o ctxVarsName (.obj context_variables))
    | v => v
  else args

/-- The body of `handleToolCalls`' per-call loop (`core.ts`), threading the
accumulating partial `Response`:
1. resolve the name in the function map; if absent push an
   `Error: Tool <name> not found.` tool-result and continue;
2. inject the current shared context under the reserved name when the
   reflection test asks for it;
3. validate the arguments, pushing `Error: <message>` and continuing on
   failure;
4. invoke the body; on a throw/rejection push `Error: <message>` and
   continue; otherwise normalize via `handleFunctionResult`, push the
   result value as a tool-result, `Object.assign` the result's context
   updates into the accumulator and record a carried agent (overwriting any
   earlier one). -/
def processToolCall (function_map : List (String × AgentFunction))
    (context_variables : List (String × JVal))
    (acc : ResponseAcc) (tool_call : ToolCall) : ResponseAcc :=
  let name := tool_call.name
  match getFn function_map name with
  | none =>
    { acc with messages :=
        acc.messages ++ [mkToolMsg tool_call.id name ("Error: Tool " ++ name ++ " not found.")] }
  | some func =>
    let args := injectCtx func context_variables tool_call.arguments
    match validateArguments args func.descriptor with
    | .error e =>
      { acc with messages :=
          acc.messages ++ [mkToolMsg tool_call.id name ("Error: " ++ e)] }
    | .ok validatedArgs =>
      match func.func validatedArgs with
      | .error e =>
        { acc with messages :=
            acc.messages ++ [mkToolMsg tool_call.id name ("Error: " ++ e)] }
      | .ok raw =>
        let result := handleFunctionResult raw
        { messages := acc.messages ++ [mkToolMsg tool_call.id name result.value]
          context_variables := objectAssign acc.context_variables result.context_variables
          agent := match result.agent with
                   | some a => some a
                   | none => acc.agent }

/-- `handleToolCalls(tool_calls, functions, context_variables, debug)` from
`core.ts`: build the function map, then process the calls strictly
sequentially, accumulating a partial `Response`. -/
def handleToolCalls (tool_calls : List ToolCall)
    (functions : List AgentFunction)
    (context_variables : List (String × JVal)) : ResponseAcc :=
  tool_calls.foldl
    (processToolCall (buildFunctionMap functions) context_variables)
    { messages := [], agent := none, context_variables := [] }

/-! ### Turn Engine (`src/swarm/core.ts`: `run`, `runAndStream`)

Both entry points share one loop shape: while history growth since entry is
below the turn budget, obtain an assistant message (directly from the
backend in `run`; by merging streamed deltas in `runAndStream`), append it,
and either stop (no tool calls, or tool execution disabled) or dispatch the
tool calls, append their results, merge context updates, apply a pending
handoff, and iterate.  The skeleton below is parameterized by `produce`,
the per-turn assistant-message constructor; each entry point instantiates
it.  The backend is a deterministic oracle (a function of the active agent,
history and shared context), and the turn budget is a finite `Nat` (the
claims under study concern finite budgets; the source's default is
`Infinity`).  The source's loop condition also tests `active_agent`, which
is always a (truthy) `Agent` instance, so it is omitted.  The `turns` field
is a ghost iteration counter used only to state the turn-budget bound. -/

/-- The Turn Engine's loop state: active agent, history, shared context,
plus a ghost count of executed loop iterations. -/
structure LoopState where
  active_agent : Agent
  history : List Msg
  ctx_vars : List (String × JVal)
  turns : Nat

/-- One loop iteration: produce and append the assistant message, then
either stop (`false`: no tool calls, or tool execution disabled) or
dispatch the calls, append their result messages, `Object.assign` the
context updates and apply a pending handoff (`true`: keep looping). -/
def runTurn (produce : Agent → List Msg → List (String × JVal) → Msg)
    (execute_tools : Bool) (s : LoopState) : LoopState × Bool :=
  let message := produce s.active_agent s.history s.ctx_vars
  let s1 : LoopState :=
    { s with history := s.history ++ [message], turns := s.turns + 1 }
  match message.tool_calls with
  | none => (s1, false)
  | some tool_calls =>
    if execute_tools = false then (s1, false)
    else
      let pr := handleToolCalls tool_calls s1.active_agent.functions s1.ctx_vars
      ({ active_agent := pr.agent.getD s1.active_agent
         history := s1.history ++ pr.messages
         ctx_vars := objectAssign s1.ctx_vars pr.context_variables
         turns := s1.turns }, true)

/-- The engine loop: iterate `runTurn` while the growth of the history
since the call began (`history.length - init_len`) is below the turn
budget. -/
def runLoop (produce : Agent → List Msg → List (String × JVal) → Msg)
    (execute_tools : Bool) (max_turns init_len : Nat) (s : LoopState) :
    LoopState :=
  if s.history.length - init_len < max_turns then
    let r := runTurn produce execute_tools s
    if r.2 then runLoop produce execute_tools max_turns init_len r.1 else r.1
  else s
termination_by (init_len + max_turns) - s.history.length
decreasing_by
  rcases hm : (produce s.active_agent s.history s.ctx_vars).tool_calls with _ | tcs
  · simp [runTurn, hm]
    omega
  · by_cases he : execute_tools = false
    · simp [runTurn, hm, he]
      omega
    · simp [runTurn, hm, he]
      omega

/-- The final aggregate of one invocation: messages appended since entry,
final active agent, final shared context (as in the `Response` built at the
bottom of `run`/`runAndStream`), plus the ghost turn count. -/
structure RunOut where
  messages : List Msg
  agent : Agent
  context_variables : List (String × JVal)
  turns : Nat

/-- The fields of `completion.choices[0].message` the engine consumes.
Arguments inside the tool calls are carried parsed, as in `ToolCall`. -/
structure CompMsg where
  content : JVal
  tool_calls : Option (List ToolCall)

/-- `run`'s per-turn message: spread the backend message and add
`sender: active_agent.name`.  No normalization of an empty tool-call array
happens here (that step exists only in `runAndStream`). -/
def nsProduce (oracle : Agent → List Msg → List (String × JVal) → CompMsg) :
    Agent → List Msg → List (String × JVal) → Msg :=
  fun a h c =>
    let md := oracle a h c
    { role := "assistant", content := md.content, sender := some a.name
      tool_call_id := none, tool_name := none, tool_calls := md.tool_calls }

/-- The non-streamed entry point `run` (with `stream: false`): deep-copy
the caller's history and context (value copies here; the reference-level
reading is `runH` below), run the loop, and aggregate the response from
the messages appended since entry. -/
def run (oracle : Agent → List Msg → List (String × JVal) → CompMsg)
    (agent : Agent) (messages : List Msg)
    (context_variables : List (String × JVal))
    (execute_tools : Bool) (max_turns : Nat) : RunOut :=
  let history := messages
  let ctx_vars := context_variables
  let init_len := history.length
  let final := runLoop (nsProduce oracle) execute_tools max_turns init_len
    { active_agent := agent, history := history, ctx_vars := ctx_vars, turns := 0 }
  { messages := final.history.drop init_len
    agent := final.active_agent
    context_variables := final.ctx_vars
    turns := final.turns }

/-- The accumulator `runAndStream` seeds each turn with
(`\x7b content: \x27\x27, sender: agent.name, role: \x27assistant\x27,
function_call: null, tool_calls: \x7b\x7d \x7d`).  Note the source uses the
*initial* agent's name here, not the active agent's. -/
def initAcc (agent0 : Agent) : MsgAcc :=
  { fields := [("content", .str ""), ("sender", .str agent0.name),
               ("role", .str "assistant"), ("function_call", .null)]
    tool_calls := none }

/-- Read a string-valued field of an accumulated JS object. -/
def strField (o : List (String × JVal)) (k : String) : Option String :=
  match getKey o k with
  | some (.str s) => some s
  | _ => none

/-- `runAndStream`'s conversion of one accumulated tool-call slot into the
object handed to `handleToolCalls` (`id`, `function.name`,
`function.arguments`; the `type` field is carried along in the source but
never read by the dispatcher).  `parse` models `JSON.parse` applied by the
dispatcher to the accumulated argument string; fields a well-formed stream
always delivers are defaulted for totality. -/
def slotToToolCall (parse : String → JVal) (slot : List (String × JVal)) :
    ToolCall :=
  let fobj :=
    match getKey slot "function" with
    | some (.obj o) => o
    | _ => []
  { id := (strField slot "id").getD ""
    name := (strField fobj "name").getD ""
    arguments := parse ((strField fobj "arguments").getD "") }

/-- `runAndStream`'s per-turn message: merge all deltas of the turn into
the accumulator, convert the indexed tool-call map to an ordered list
(`Object.values`), and normalize an empty list to `null` (`none`). -/
def finalizeStream (parse : String → JVal) (agent0 : Agent)
    (deltas : List Delta) : Msg :=
  let acc := deltas.foldl mergeChunk (initAcc agent0)
  let slots := (acc.tool_calls.getD []).map Prod.snd
  { role := (strField acc.fields "role").getD "assistant"
    content := (getKey acc.fields "content").getD .null
    sender := strField acc.fields "sender"
    tool_call_id := none
    tool_name := none
    tool_calls := if slots.length = 0 then none
                  else some (slots.map (slotToToolCall parse)) }

/-- The streamed entry point `runAndStream`: the backend oracle now yields
the turn's delta sequence, merged by `finalizeStream`. -/
def runStream (parse : String → JVal)
    (deltaOracle : Agent → List Msg → List (String × JVal) → List Delta)
    (agent : Agent) (messages : List Msg)
    (context_variables : List (String × JVal))
    (execute_tools : Bool) (max_turns : Nat) : RunOut :=
  let history := messages
  let ctx_vars := context_variables
  let init_len := history.length
  let final := runLoop (fun a h c => finalizeStream parse agent (deltaOracle a h c))
    execute_tools max_turns init_len
    { active_agent := agent, history := history, ctx_vars := ctx_vars, turns := 0 }
  { messages := final.history.drop init_len
    agent := final.active_agent
    context_variables := final.ctx_vars
    turns := final.turns }

/-! ### Reference-level model of a run (for the ownership claim)

To state that a run never mutates the caller's `messages` array or
`context_variables` object, JS reference semantics must be visible: the
heap below maps references to message arrays and to context objects, and
the loop is transcribed with every mutation as an explicit heap write
(`history.push` and `Object.assign(ctx_vars, ...)` write through the run's
own references, which `cloneDeep` freshly allocates at entry). -/

/-- A heap of JS objects: one region of message arrays, one of plain
objects, with bump allocation.  A reference is an index below the region's
`next` counter. -/
structure JSHeap where
  arrs : Nat → List Msg
  objs : Nat → List (String × JVal)
  nextArr : Nat
  nextObj : Nat

/-- Allocate a fresh message array holding a (deep) copy of `v`. -/
def JSHeap.allocArr (h : JSHeap) (v : List Msg) : Nat × JSHeap :=
  (h.nextArr,
   { h with arrs := fun i => if i = h.nextArr then v else h.arrs i
            nextArr := h.nextArr + 1 })

/-- Allocate a fresh plain object holding a (deep) copy of `v`. -/
def JSHeap.allocObj (h : JSHeap) (v : List (String × JVal)) : Nat × JSHeap :=
  (h.nextObj,
   { h with objs := fun i => if i = h.nextObj then v else h.objs i
            nextObj := h.nextObj + 1 })

/-- `array.push(...ms)` through a reference. -/
def JSHeap.pushArr (h : JSHeap) (r : Nat) (ms : List Msg) : JSHeap :=
  { h with arrs := fun i => if i = r then h.arrs r ++ ms else h.arrs i }

/-- `Object.assign(obj, u)` through a reference. -/
def JSHeap.assignObj (h : JSHeap) (r : Nat) (u : List (String × JVal)) : JSHeap :=
  { h with objs := fun i => if i = r then objectAssign (h.objs r) u else h.objs i }

/-- The engine loop transcribed at the reference level: history and shared
context are read and written exclusively through `hRef`/`cRef`. -/
def runLoopH (produce : Agent → List Msg → List (String × JVal) → Msg)
    (execute_tools : Bool) (max_turns init_len : Nat) (hRef cRef : Nat)
    (agent : Agent) (heap : JSHeap) : Agent × JSHeap :=
  if (heap.arrs hRef).length - init_len < max_turns then
    let message := produce agent (heap.arrs hRef) (heap.objs cRef)
    let heap1 := heap.pushArr hRef [message]
    match message.tool_calls with
    | none => (agent, heap1)
    | some tool_calls =>
      if execute_tools = false then (agent, heap1)
      else
        let pr := handleToolCalls tool_calls agent.functions (heap1.objs cRef)
        let heap2 := (heap1.pushArr hRef pr.messages).assignObj cRef pr.context_variables
        runLoopH produce execute_tools max_turns init_len hRef cRef
          (pr.agent.getD agent) heap2
  else (agent, heap)
termination_by (init_len + max_turns) - (heap.arrs hRef).length
decreasing_by
  simp [JSHeap.pushArr, JSHeap.assignObj]
  omega

/-- A run entry point at the reference level (covering both entry points
via `produce`): `cloneDeep` the caller's messages and context into fresh
allocations, run the loop through the fresh references, and build the
response from them. -/
def runH (produce : Agent → List Msg → List (String × JVal) → Msg)
    (execute_tools : Bool) (max_turns : Nat) (agent : Agent)
    (msgsRef ctxRef : Nat) (heap : JSHeap) : RunOut × JSHeap :=
  let a1 := heap.allocArr (heap.arrs msgsRef)
  let hRef := a1.1
  let a2 := a1.2.allocObj (a1.2.objs ctxRef)
  let cRef := a2.1
  let heap2 := a2.2
  let init_len := (heap2.arrs hRef).length
  let fin := runLoopH produce execute_tools max_turns init_len hRef cRef agent heap2
  ({ messages := (fin.2.arrs hRef).drop init_len
     agent := fin.1
     context_variables := fin.2.objs cRef
     turns := 0 }, fin.2)

/-! ### Observation functions used by the specifications -/

/-- Left-biased choice on options (`a` wins when present). -/
def optOr {α : Type} (a b : Option α) : Option α :=
  match a with
  | some x => some x
  | none => b

/-- The *last* binding of a key in an assoc list (what repeated JS
assignments leave in place). -/
def getKeyLast (o : List (String × JVal)) (k : String) : Option JVal :=
  getKey o.reverse k

/-- Concatenation of a list of string fragments in arrival order. -/
def concatAll (l : List String) : String :=
  l.foldr (fun a b => a ++ b) ""

/-- The accumulated `id` of a tool-call slot. -/
def slotId (slot : List (String × JVal)) : Option String :=
  strField slot "id"

/-- The accumulated `type` of a tool-call slot. -/
def slotType (slot : List (String × JVal)) : Option String :=
  strField slot "type"

/-- The accumulated `function` object of a tool-call slot, when present. -/
def slotFn (slot : List (String × JVal)) : Option (List (String × JVal)) :=
  match getKey slot "function" with
  | some (.obj o) => some o
  | _ => none

/-- The accumulated `function.name` of a tool-call slot. -/
def slotFnName (slot : List (String × JVal)) : Option String :=
  (slotFn slot).bind (fun o => strField o "name")

/-- The accumulated `function.arguments` of a tool-call slot. -/
def slotFnArgs (slot : List (String × JVal)) : Option String :=
  (slotFn slot).bind (fun o => strField o "arguments")

/-- The name fragment carried by a tool-call delta, if any. -/
def fragName (d : ToolCallDelta) : Option String :=
  d.function?.bind FnDelta.name?

/-- The argument-string fragment carried by a tool-call delta, if any. -/
def fragArgs (d : ToolCallDelta) : Option String :=
  d.function?.bind FnDelta.arguments?

/-- The well-formedness invariant of accumulated slots: the `function`
field, when present, holds an object (the only shape `applyToSlot` ever
stores there). -/
def SlotInv (slot : List (String × JVal)) : Prop :=
  getKey slot "function" = none ∨ ∃ o, getKey slot "function" = some (.obj o)

/-- The `Result` a dispatched call contributes to the accumulating partial
response, when it resolves, validates and executes successfully (`none` on
any of the three failure modes, which contribute only an error message). -/
def callResult? (function_map : List (String × AgentFunction))
    (context_variables : List (String × JVal)) (tool_call : ToolCall) :
    Option Result :=
  match getFn function_map tool_call.name with
  | none => none
  | some func =>
    match validateArguments (injectCtx func context_variables tool_call.arguments)
        func.descriptor with
    | .error _ => none
    | .ok validatedArgs =>
      match func.func validatedArgs with
      | .error _ => none
      | .ok raw => some (handleFunctionResult raw)

/-- The context-variable updates a dispatched call contributes. -/
def callUpdates (function_map : List (String × AgentFunction))
    (context_variables : List (String × JVal)) (tool_call : ToolCall) :
    List (String × JVal) :=
  match callResult? function_map context_variables tool_call with
  | some r => r.context_variables
  | none => []

/-- The handoff agent a dispatched call contributes, if any. -/
def callAgent? (function_map : List (String × AgentFunction))
    (context_variables : List (String × JVal)) (tool_call : ToolCall) :
    Option Agent :=
  (callResult? function_map context_variables tool_call).bind Result.agent

/-! ### Concrete instances used by witnesses and counterexamples -/

/-- A plain agent with no registered functions. -/
def ag0 : Agent := .mk "Agent" "gpt-4o" (fun _ => "You are a helpful agent.") [] none true

/-- A handoff target agent. -/
def agB : Agent := .mk "Bob" "gpt-4o" (fun _ => "You are Bob.") [] none true

/-- An empty parameter list descriptor. -/
def descNone (n : String) : FunctionDescriptor :=
  { name := n, description := "", parameters := [] }

/-- A descriptor with one required number parameter `x`. -/
def descX : FunctionDescriptor :=
  { name := "f", description := ""
    parameters := [("x", .mk "number" true "first" none none none)] }

/-- A tool whose body throws. -/
def errTool : AgentFunction := .mk "boomer" (fun _ => .error "boom") false (descNone "boomer")

/-- A tool returning an `Agent` (handoff). -/
def handoffTool : AgentFunction := .mk "transfer" (fun _ => .ok (.agent agB)) false (descNone "transfer")

/-- A tool whose result updates shared context with `a: 1`. -/
def toolSetA : AgentFunction :=
  .mk "set_a" (fun _ => .ok (.result (.mk "ok" none [("a", .num 1)]))) false (descNone "set_a")

/-- A tool whose result updates shared context with `b: 2`. -/
def toolSetB : AgentFunction :=
  .mk "set_b" (fun _ => .ok (.result (.mk "ok" none [("b", .num 2)]))) false (descNone "set_b")

/-- Concrete tool calls for the instances above. -/
def callErr : ToolCall := { id := "1", name := "boomer", arguments := .obj [] }

def callHand : ToolCall := { id := "2", name := "transfer", arguments := .obj [] }

def callA : ToolCall := { id := "3", name := "set_a", arguments := .obj [] }

def callB : ToolCall := { id := "4", name := "set_b", arguments := .obj [] }

def callFoo : ToolCall := { id := "5", name := "foo", arguments := .obj [] }

/-- The two tool-call fragments of the specification's merge example. -/
def exFn1 : FnDelta := { name? := some "ca", arguments? := some "\x7b\"x\":" }

def exFn2 : FnDelta := { name? := none, arguments? := some "1\x7d" }

def exTc1 : ToolCallDelta := { index := 0, id? := some "a", type? := none, function? := some exFn1 }

def exTc2 : ToolCallDelta := { index := 0, id? := none, type? := none, function? := some exFn2 }

def exDelta1 : Delta := { role? := none, tool_calls? := some [exTc1], fields := [] }

def exDelta2 : Delta := { role? := none, tool_calls? := some [exTc2], fields := [] }

/-- Two fragments at one index both carrying an `id`, to separate
first-appearance from last-appearance semantics. -/
def cxTc1 : ToolCallDelta := { index := 0, id? := some "a", type? := none, function? := none }

def cxTc2 : ToolCallDelta := { index := 0, id? := some "b", type? := none, function? := none }

def cxDelta1 : Delta := { role? := none, tool_calls? := some [cxTc1], fields := [] }

def cxDelta2 : Delta := { role? := none, tool_calls? := some [cxTc2], fields := [] }

/-- A backend message with an *empty tool-call array* (not `null`). -/
def emptyArrOracle : Agent → List Msg → List (String × JVal) → CompMsg :=
  fun _ _ _ => { content := .null, tool_calls := some [] }

/-- A backend message with no tool calls at all. -/
def noToolOracle : Agent → List Msg → List (String × JVal) → CompMsg :=
  fun _ _ _ => { content := .null, tool_calls := none }

/-- A streamed turn whose only delta carries `tool_calls: []`. -/
def emptyTCDeltaOracle : Agent → List Msg → List (String × JVal) → List Delta :=
  fun _ _ _ => [{ role? := none, tool_calls? := some [], fields := [] }]

/-- A trivial `JSON.parse` stand-in for streamed witnesses. -/
def parse0 : String → JVal := fun _ => .null

/-- A produced assistant message without tool calls, and the corresponding
`produce` oracle (used by frame-property witnesses). -/
def msg0 : Msg :=
  { role := "assistant", content := .str "hi", sender := some "Agent"
    tool_call_id := none, tool_name := none, tool_calls := none }

def produce0 : Agent → List Msg → List (String × JVal) → Msg := fun _ _ _ => msg0

/-- A loop state whose history already holds one message. -/
def s0 : LoopState :=
  { active_agent := ag0, history := [msg0], ctx_vars := [], turns := 0 }

/-- An empty two-region heap with one caller array (ref 0) and one caller
object (ref 0) allocated. -/
def heap0 : JSHeap :=
  { arrs := fun _ => [msg0], objs := fun _ => [("k", .str "v")], nextArr := 1, nextObj := 1 }

/-- An accumulator mid-dispatch, for atomicity witnesses. -/
def acc0 : ResponseAcc :=
  { messages := [mkToolMsg "0" "prior" "done"], agent := some agB
    context_variables := [("seen", .bool true)] }

/-- An agent hosting the handoff tool. -/
def agH : Agent := .mk "Host" "gpt-4o" (fun _ => "h") [handoffTool] none true

/-- An assistant message requesting the handoff tool. -/
def msgHand : Msg :=
  { role := "assistant", content := .null, sender := some "Host"
    tool_call_id := none, tool_name := none, tool_calls := some [callHand] }

def produceHand : Agent → List Msg → List (String × JVal) → Msg := fun _ _ _ => msgHand

/-- A loop state whose active agent hosts the handoff tool. -/
def sH : LoopState := { active_agent := agH, history := [], ctx_vars := [], turns := 0 }

/-!
## Theorems

First the library of helper lemmas about the embedded operations, then one
theorem per specification claim (with witnesses and counterexamples).
-/

theorem getKey_setKey_self (o : List (String × JVal)) (k : String) (v : JVal) :
    getKey (setKey o k v) k = some v := by
  induction o with
  | nil => simp [setKey, getKey]
  | cons kv rest ih =>
    rcases kv with ⟨k', v'⟩
    by_cases h : k' = k <;> simp [setKey, getKey, h, ih]

theorem getKey_setKey_other (o : List (String × JVal)) (k k' : String) (v : JVal)
    (h : k' ≠ k) : getKey (setKey o k' v) k = getKey o k := by
  induction o with
  | nil => simp [setKey, getKey, h]
  | cons kv rest ih =>
    rcases kv with ⟨k0, v0⟩
    by_cases h0 : k0 = k'
    · subst h0
      simp [setKey, getKey, h]
    · simp only [setKey, if_neg h0]
      by_cases h1 : k0 = k
      · simp [getKey, h1]
      · simp [getKey, h1, ih]

theorem getKey_append (a b : List (String × JVal)) (k : String) :
    getKey (a ++ b) k = optOr (getKey a k) (getKey b k) := by
  induction a with
  | nil => simp [getKey, optOr]
  | cons kv rest ih =>
    rcases kv with ⟨k', v'⟩
    by_cases h : k' = k <;> simp [getKey, h, ih, optOr]

theorem getKeyLast_none (s : List (String × JVal)) (k : String)
    (h : getKeyLast s k = none) : getKey s k = none := by
  induction s with
  | nil => simp [getKey]
  | cons kv rest ih =>
    rcases kv with ⟨k', v'⟩
    rw [getKeyLast, List.reverse_cons, getKey_append] at h
    rcases hr : getKey rest.reverse k with _ | w
    · rw [hr] at h
      simp only [optOr] at h
      by_cases hk : k' = k
      · simp [getKey, hk] at h
      · simp [getKey, hk]
        exact ih (by simpa [getKeyLast] using hr)
    · rw [hr] at h
      simp [optOr] at h

theorem getKey_objectAssign_absent (t s : List (String × JVal)) (k : String)
    (h : getKey s k = none) : getKey (objectAssign t s) k = getKey t k := by
  induction s generalizing t with
  | nil => rfl
  | cons kv rest ih =>
    rcases kv with ⟨k', v'⟩
    by_cases hk : k' = k
    · simp [getKey, hk] at h
    · simp only [getKey, hk, if_false] at h
      show getKey (objectAssign (setKey t k' v') rest) k = getKey t k
      rw [ih (setKey t k' v') h, getKey_setKey_other _ _ _ _ hk]

theorem getKey_objectAssign_last (t s : List (String × JVal)) (k : String) (v : JVal)
    (h : getKeyLast s k = some v) : getKey (objectAssign t s) k = some v := by
  induction s generalizing t with
  | nil => simp [getKeyLast, getKey] at h
  | cons kv rest ih =>
    rcases kv with ⟨k', v'⟩
    rw [getKeyLast, List.reverse_cons, getKey_append] at h
    rcases hr : getKey rest.reverse k with _ | w
    · rw [hr] at h
      simp only [optOr] at h
      by_cases hk : k' = k
      · subst hk
        simp [getKey] at h
        subst h
        show getKey (objectAssign (setKey t k' v') rest) k' = some v'
        rw [getKey_objectAssign_absent _ _ _ (getKeyLast_none _ _ (by simpa [getKeyLast] using hr)),
          getKey_setKey_self]
      · simp [getKey, hk] at h
    · rw [hr] at h
      simp only [optOr] at h
      injection h with hwv
      subst hwv
      show getKey (objectAssign (setKey t k' v') rest) k = some w
      exact ih (setKey t k' v') (by simpa [getKeyLast] using hr)

theorem objectAssign_nil (t : List (String × JVal)) : objectAssign t [] = t := rfl

/-- The complete effect of one dispatched call on the accumulating partial
response: exactly one appended message, the call's handoff agent (if any)
overwriting the accumulated one, and the call's context updates assigned
over the accumulated updates. -/
theorem processToolCall_spec (map : List (String × AgentFunction))
    (ctx : List (String × JVal)) (acc : ResponseAcc) (tc : ToolCall) :
    ∃ m, processToolCall map ctx acc tc =
      { messages := acc.messages ++ [m]
        agent := optOr (callAgent? map ctx tc) acc.agent
        context_variables := objectAssign acc.context_variables (callUpdates map ctx tc) } := by
  unfold processToolCall callAgent? callUpdates callResult?
  rcases hf : getFn map tc.name with _ | f
  · exact ⟨mkToolMsg tc.id tc.name ("Error: Tool " ++ tc.name ++ " not found."),
      by simp [hf, optOr, objectAssign_nil]⟩
  · rcases hv : validateArguments (injectCtx f ctx tc.arguments) f.descriptor with e | va
    · exact ⟨mkToolMsg tc.id tc.name ("Error: " ++ e), by simp [hf, hv, optOr, objectAssign_nil]⟩
    · rcases hr : f.func va with e | raw
      · exact ⟨mkToolMsg tc.id tc.name ("Error: " ++ e),
          by simp [hf, hv, hr, optOr, objectAssign_nil]⟩
      · refine ⟨mkToolMsg tc.id tc.name (handleFunctionResult raw).value, ?_⟩
        rcases ha : (handleFunctionResult raw).agent with _ | a <;>
          simp [hf, hv, hr, ha, optOr]

theorem processToolCall_agent (map : List (String × AgentFunction))
    (ctx : List (String × JVal)) (acc : ResponseAcc) (tc : ToolCall) :
    (processToolCall map ctx acc tc).agent = optOr (callAgent? map ctx tc) acc.agent := by
  obtain ⟨m, hm⟩ := processToolCall_spec map ctx acc tc
  rw [hm]

theorem processToolCall_ctx (map : List (String × AgentFunction))
    (ctx : List (String × JVal)) (acc : ResponseAcc) (tc : ToolCall) :
    (processToolCall map ctx acc tc).context_variables
      = objectAssign acc.context_variables (callUpdates map ctx tc) := by
  obtain ⟨m, hm⟩ := processToolCall_spec map ctx acc tc
  rw [hm]

theorem foldl_processToolCall_agent (map : List (String × AgentFunction))
    (ctx : List (String × JVal)) (tcs : List ToolCall) (acc : ResponseAcc) :
    (tcs.foldl (processToolCall map ctx) acc).agent
      = optOr ((tcs.filterMap (callAgent? map ctx)).getLast?) acc.agent := by
  induction tcs generalizing acc with
  | nil => simp [optOr]
  | cons tc rest ih =>
    rw [List.foldl_cons, ih, processToolCall_agent]
    rcases hca : callAgent? map ctx tc with _ | a
    · simp [hca, optOr]
    · simp only [List.filterMap_cons, hca]
      rcases hl : rest.filterMap (callAgent? map ctx) with _ | ⟨x, xs⟩
      · simp [optOr]
      · rw [List.getLast?_cons_cons]
        rcases hgl : (x :: xs).getLast? with _ | w
        · simp at hgl
        · simp [optOr]

/-- Claim C3: a tool call whose resolved function throws (or rejects, both
modelled by `Except.error`) is recovered locally: the dispatcher appends
exactly one tool-result message with content `Error: <message>` and
continues processing the remaining tool calls from an otherwise unchanged
accumulator (stated both for the dispatcher entry point and for an
arbitrary mid-turn accumulator), so a thrown tool body never aborts the
run. -/
theorem toolcall_throw_recovered
    (functions : List AgentFunction) (ctx : List (String × JVal))
    (tc : ToolCall) (rest : List ToolCall) (acc : ResponseAcc)
    (f : AgentFunction) (va : JVal) (m : String)
    (hf : getFn (buildFunctionMap functions) tc.name = some f)
    (hv : validateArguments (injectCtx f ctx tc.arguments) f.descriptor = .ok va)
    (hr : f.func va = .error m) :
    handleToolCalls (tc :: rest) functions ctx
      = List.foldl (processToolCall (buildFunctionMap functions) ctx)
          { messages := [mkToolMsg tc.id tc.name ("Error: " ++ m)]
            agent := none, context_variables := [] } rest
    ∧ List.foldl (processToolCall (buildFunctionMap functions) ctx) acc (tc :: rest)
      = List.foldl (processToolCall (buildFunctionMap functions) ctx)
          { acc with messages := acc.messages ++ [mkToolMsg tc.id tc.name ("Error: " ++ m)] }
          rest := by
  have hstep : ∀ a : ResponseAcc, processToolCall (buildFunctionMap functions) ctx a tc
      = { a with messages := a.messages ++ [mkToolMsg tc.id tc.name ("Error: " ++ m)] } := by
    intro a
    unfold processToolCall
    simp [hf, hv, hr]
  constructor
  · rw [handleToolCalls, List.foldl_cons, hstep]
    simp
  · rw [List.foldl_cons, hstep]

theorem toolcall_throw_recovered_witness :
    handleToolCalls [callErr] [errTool] []
      = { messages := [mkToolMsg "1" "boomer" "Error: boom"]
          agent := none, context_variables := [] } := by
  have h := toolcall_throw_recovered [errTool] [] callErr [] acc0 errTool (.obj []) "boom"
    rfl
    (by simp [injectCtx, errTool, callErr, AgentFunction.wantsCtx, AgentFunction.descriptor,
      validateArguments, validateValue, descNone, jsActualType, checkRequired,
      validateProps, enumTail, ParameterSchema.type, ParameterSchema.properties,
      ParameterSchema.enum, Except.map, strToLower, charToLower])
    rfl
  exact h.1

/-- Claim C4: dispatching a tool call whose name is not registered appends
exactly one synthesized tool-result whose content contains
`Tool <name> not found`, raises nothing, and the dispatcher continues with
the remaining calls of the turn. -/
theorem toolcall_unknown_recovered
    (functions : List AgentFunction) (ctx : List (String × JVal))
    (tc : ToolCall) (rest : List ToolCall) (acc : ResponseAcc)
    (hf : getFn (buildFunctionMap functions) tc.name = none) :
    (∃ pre post, ("Error: Tool " ++ tc.name ++ " not found.")
        = pre ++ ("Tool " ++ tc.name ++ " not found") ++ post)
    ∧ handleToolCalls (tc :: rest) functions ctx
      = List.foldl (processToolCall (buildFunctionMap functions) ctx)
          { messages := [mkToolMsg tc.id tc.name ("Error: Tool " ++ tc.name ++ " not found.")]
            agent := none, context_variables := [] } rest
    ∧ List.foldl (processToolCall (buildFunctionMap functions) ctx) acc (tc :: rest)
      = List.foldl (processToolCall (buildFunctionMap functions) ctx)
          { acc with messages :=
              acc.messages ++ [mkToolMsg tc.id tc.name ("Error: Tool " ++ tc.name ++ " not found.")] }
          rest := by
  have hstep : ∀ a : ResponseAcc, processToolCall (buildFunctionMap functions) ctx a tc
      = { a with messages :=
            a.messages ++ [mkToolMsg tc.id tc.name ("Error: Tool " ++ tc.name ++ " not found.")] } := by
    intro a
    unfold processToolCall
    simp [hf]
  refine ⟨⟨"Error: ", ".", ?_⟩, ?_, ?_⟩
  · have e1 : ("Error: " ++ "Tool " : String) = "Error: Tool " := rfl
    have e2 : (" not found" ++ "." : String) = " not found." := rfl
    conv_rhs => rw [← String.append_assoc, ← String.append_assoc, e1, String.append_assoc, e2]
  · rw [handleToolCalls, List.foldl_cons, hstep]
    simp
  · rw [List.foldl_cons, hstep]

theorem toolcall_unknown_recovered_witness :
    (∃ pre post, ("Error: Tool foo not found." : String)
        = pre ++ ("Tool foo not found") ++ post)
    ∧ handleToolCalls [callFoo] [] []
      = { messages := [mkToolMsg "5" "foo" "Error: Tool foo not found."]
          agent := none, context_variables := [] } := by
  have h := toolcall_unknown_recovered [] [] callFoo [] acc0 rfl
  exact ⟨h.1, h.2.1⟩

/-- Claim C10: a tool call that fails — unknown name, argument-validation
failure, or a thrown execution error — is atomic with respect to the
dispatcher's state: it contributes exactly one error tool-result message,
leaving the accumulated context-variable updates and the pending
active-agent field exactly as they were. -/
theorem failed_toolcall_atomic
    (functions : List AgentFunction) (ctx : List (String × JVal))
    (acc : ResponseAcc) (tc : ToolCall)
    (h : getFn (buildFunctionMap functions) tc.name = none
      ∨ (∃ f e, getFn (buildFunctionMap functions) tc.name = some f
           ∧ validateArguments (injectCtx f ctx tc.arguments) f.descriptor = .error e)
      ∨ (∃ f va e, getFn (buildFunctionMap functions) tc.name = some f
           ∧ validateArguments (injectCtx f ctx tc.arguments) f.descriptor = .ok va
           ∧ f.func va = .error e)) :
    ∃ content, processToolCall (buildFunctionMap functions) ctx acc tc
      = { acc with messages := acc.messages ++ [mkToolMsg tc.id tc.name content] } := by
  rcases h with hf | ⟨f, e, hf, hv⟩ | ⟨f, va, e, hf, hv, hr⟩
  · exact ⟨"Error: Tool " ++ tc.name ++ " not found.", by unfold processToolCall; simp [hf]⟩
  · exact ⟨"Error: " ++ e, by unfold processToolCall; simp [hf, hv]⟩
  · exact ⟨"Error: " ++ e, by unfold processToolCall; simp [hf, hv, hr]⟩

theorem failed_toolcall_atomic_witness :
    ∃ content, processToolCall (buildFunctionMap []) [] acc0 callFoo
      = { acc0 with messages := acc0.messages ++ [mkToolMsg "5" "foo" content] } :=
  failed_toolcall_atomic [] [] acc0 callFoo (Or.inl rfl)

/-- Claim C7: two tool calls whose results carry context updates `a: 1` and
`b: 2` leave both keys in the post-dispatch shared context (whatever it
held before); in general each call's updates are assigned key-by-key over
the accumulated updates (`processToolCall` equation), and `Object.assign`
preserves every key absent from the source while the source's last binding
wins on a colliding key — never a wholesale replacement. -/
theorem context_updates_merge :
    (∀ ctx0 : List (String × JVal),
      getKey (objectAssign ctx0
          (handleToolCalls [callA, callB] [toolSetA, toolSetB] ctx0).context_variables) "a"
        = some (.num 1)
      ∧ getKey (objectAssign ctx0
          (handleToolCalls [callA, callB] [toolSetA, toolSetB] ctx0).context_variables) "b"
        = some (.num 2))
    ∧ (∀ map ctx acc tc, (processToolCall map ctx acc tc).context_variables
        = objectAssign acc.context_variables (callUpdates map ctx tc))
    ∧ (∀ t s k, getKey s k = none → getKey (objectAssign t s) k = getKey t k)
    ∧ (∀ t s k v, getKeyLast s k = some v → getKey (objectAssign t s) k = some v) := by
  refine ⟨?_, processToolCall_ctx, getKey_objectAssign_absent, getKey_objectAssign_last⟩
  intro ctx0
  have hctx : (handleToolCalls [callA, callB] [toolSetA, toolSetB] ctx0).context_variables
      = [("a", .num 1), ("b", .num 2)] := by
    simp [handleToolCalls, processToolCall, buildFunctionMap, setKeyFn, getFn,
      callA, callB, toolSetA, toolSetB, AgentFunction.name, AgentFunction.func,
      AgentFunction.wantsCtx, AgentFunction.descriptor, injectCtx,
      validateArguments, validateValue, descNone, jsActualType, checkRequired,
      validateProps, enumTail, ParameterSchema.type, ParameterSchema.properties,
      ParameterSchema.enum, Except.map, strToLower, charToLower,
      handleFunctionResult, Result.context_variables, Result.agent,
      objectAssign, setKey]
  rw [hctx]
  constructor
  · exact getKey_objectAssign_last ctx0 _ "a" (.num 1) rfl
  · exact getKey_objectAssign_last ctx0 _ "b" (.num 2) rfl

theorem context_updates_merge_witness :
    (getKey (objectAssign
        [(("a" : String), JVal.str "old"), ("c", JVal.num 7)]
        [(("a" : String), JVal.num 1), ("b", JVal.num 2)]) "c"
      = getKey [(("a" : String), JVal.str "old"), ("c", JVal.num 7)] "c")
    ∧ getKey (objectAssign
        [(("a" : String), JVal.str "old"), ("c", JVal.num 7)]
        [(("a" : String), JVal.num 1), ("b", JVal.num 2)]) "a"
      = some (.num 1) := by
  refine ⟨context_updates_merge.2.2.1 _ _ "c" rfl,
    context_updates_merge.2.2.2 _ _ "a" (.num 1) rfl⟩

/-- Claim C6: a tool returning an `Agent` produces a `Result` whose `agent`
field is exactly that agent and whose value is the JSON object
`\x7b"assistant": <name>\x7d`; across a turn the dispatcher's pending agent
is the last handoff among the turn's calls; and when the turn's dispatch
records a pending agent, the loop's next active agent equals it. -/
theorem handoff_sets_active_agent :
    (∀ A : Agent, handleFunctionResult (.agent A) = .mk (jsonAssistant A.name) (some A) [])
    ∧ (∀ (map : List (String × AgentFunction)) (ctx : List (String × JVal))
          (tcs : List ToolCall) (acc : ResponseAcc),
        ((tcs.foldl (processToolCall map ctx) acc)).agent
        = optOr ((tcs.filterMap (callAgent? map ctx)).getLast?) acc.agent)
    ∧ (∀ produce s tcs A,
        (produce s.active_agent s.history s.ctx_vars).tool_calls = some tcs →
        (handleToolCalls tcs s.active_agent.functions s.ctx_vars).agent = some A →
        (runTurn produce true s).1.active_agent = A) := by
  refine ⟨fun A => rfl, ?_, ?_⟩
  · intro map ctx tcs acc
    exact foldl_processToolCall_agent map ctx tcs acc
  · intro produce s tcs A hm ha
    unfold runTurn
    simp [hm, ha]

theorem handoff_sets_active_agent_witness :
    handleFunctionResult (.agent agB) = .mk (jsonAssistant "Bob") (some agB) []
    ∧ (runTurn produceHand true sH).1.active_agent = agB := by
  constructor
  · exact handoff_sets_active_agent.1 agB
  · refine handoff_sets_active_agent.2.2 produceHand sH [callHand] agB rfl ?_
    simp [handleToolCalls, processToolCall, buildFunctionMap, setKeyFn, getFn,
      callHand, handoffTool, sH, agH, Agent.functions, AgentFunction.name,
      AgentFunction.func, AgentFunction.wantsCtx, AgentFunction.descriptor, injectCtx,
      validateArguments, validateValue, descNone, jsActualType, checkRequired,
      validateProps, enumTail, ParameterSchema.type, ParameterSchema.properties,
      ParameterSchema.enum, Except.map, strToLower, charToLower,
      handleFunctionResult, Result.agent]

theorem runTurn_turns (p : Agent → List Msg → List (String × JVal) → Msg)
    (e : Bool) (s : LoopState) : ((runTurn p e s).1).turns = s.turns + 1 := by
  unfold runTurn
  rcases hm : (p s.active_agent s.history s.ctx_vars).tool_calls with _ | tcs
  · simp [hm]
  · by_cases he : e = false <;> simp [hm, he]

theorem runTurn_history_length (p : Agent → List Msg → List (String × JVal) → Msg)
    (e : Bool) (s : LoopState) :
    s.history.length + 1 ≤ ((runTurn p e s).1).history.length := by
  unfold runTurn
  rcases hm : (p s.active_agent s.history s.ctx_vars).tool_calls with _ | tcs
  · simp [hm]
  · by_cases he : e = false <;> simp [hm, he]

theorem runLoop_turns_le (p : Agent → List Msg → List (String × JVal) → Msg)
    (e : Bool) (m i : Nat) :
    ∀ s : LoopState, i ≤ s.history.length →
      (runLoop p e m i s).turns ≤ s.turns + (m - (s.history.length - i)) := by
  have main : ∀ (n : Nat) (s : LoopState), (i + m) - s.history.length ≤ n →
      i ≤ s.history.length →
      (runLoop p e m i s).turns ≤ s.turns + (m - (s.history.length - i)) := by
    intro n
    induction n with
    | zero =>
      intro s hn hle
      rw [runLoop.eq_def]
      rw [if_neg (by omega : ¬ s.history.length - i < m)]
      omega
    | succ n ihn =>
      intro s hn hle
      rw [runLoop.eq_def]
      by_cases hg : s.history.length - i < m
      · rw [if_pos hg]
        have h1 := runTurn_turns p e s
        have h2 := runTurn_history_length p e s
        by_cases hb : (runTurn p e s).2 = true
        · rw [if_pos hb]
          have hrec := ihn ((runTurn p e s).1) (by omega) (by omega)
          omega
        · rw [if_neg hb]
          omega
      · rw [if_neg hg]
        omega
  intro s hle
  exact main ((i + m) - s.history.length) s (le_refl _) hle

/-- Claim C2: the engine loop counts a turn per iteration and appends at
least one message per turn, so with a finite budget `N` the loop executes
at most `N` iterations (stated for the loop from any reachable state, and
for both entry points from entry, where the count starts at `0`); and the
loop halts, leaving the state untouched, as soon as the history's growth
since entry reaches `N` — regardless of outstanding tool calls, i.e. for
every `produce` oracle, including ones that request tools forever. -/
theorem run_turn_budget :
    (∀ (produce : Agent → List Msg → List (String × JVal) → Msg) (execute_tools : Bool)
        (max_turns init_len : Nat) (s : LoopState),
      init_len ≤ s.history.length →
      (runLoop produce execute_tools max_turns init_len s).turns
        ≤ s.turns + (max_turns - (s.history.length - init_len)))
    ∧ (∀ (oracle : Agent → List Msg → List (String × JVal) → CompMsg)
          (agent : Agent) (messages : List Msg) (context_variables : List (String × JVal))
          (execute_tools : Bool) (max_turns : Nat),
        (run oracle agent messages context_variables execute_tools max_turns).turns ≤ max_turns)
    ∧ (∀ (parse : String → JVal)
          (deltaOracle : Agent → List Msg → List (String × JVal) → List Delta)
          (agent : Agent) (messages : List Msg) (context_variables : List (String × JVal))
          (execute_tools : Bool) (max_turns : Nat),
        (runStream parse deltaOracle agent messages context_variables execute_tools max_turns).turns
          ≤ max_turns)
    ∧ (∀ (produce : Agent → List Msg → List (String × JVal) → Msg) (execute_tools : Bool)
          (max_turns init_len : Nat) (s : LoopState),
        max_turns ≤ s.history.length - init_len →
        runLoop produce execute_tools max_turns init_len s = s) := by
  refine ⟨runLoop_turns_le, ?_, ?_, ?_⟩
  · intro oracle agent messages ctx e m
    have h : (runLoop (nsProduce oracle) e m messages.length
        { active_agent := agent, history := messages, ctx_vars := ctx, turns := 0 }).turns
        ≤ 0 + (m - (messages.length - messages.length)) :=
      runLoop_turns_le (nsProduce oracle) e m messages.length _ (le_refl _)
    show (runLoop (nsProduce oracle) e m messages.length
        { active_agent := agent, history := messages, ctx_vars := ctx, turns := 0 }).turns ≤ m
    omega
  · intro parse dOracle agent messages ctx e m
    have h : (runLoop (fun a h c => finalizeStream parse agent (dOracle a h c)) e m
        messages.length
        { active_agent := agent, history := messages, ctx_vars := ctx, turns := 0 }).turns
        ≤ 0 + (m - (messages.length - messages.length)) :=
      runLoop_turns_le _ e m messages.length _ (le_refl _)
    show (runLoop (fun a h c => finalizeStream parse agent (dOracle a h c)) e m
        messages.length
        { active_agent := agent, history := messages, ctx_vars := ctx, turns := 0 }).turns ≤ m
    omega
  · intro produce e m i s hstop
    rw [runLoop.eq_def]
    simp only [if_neg (by omega : ¬ s.history.length - i < m)]

theorem run_turn_budget_witness :
    (runLoop produce0 true 1 0 s0).turns ≤ s0.turns + (1 - (s0.history.length - 0))
    ∧ runLoop produce0 true 1 0 s0 = s0 := by
  refine ⟨run_turn_budget.1 produce0 true 1 0 s0 (by decide), ?_⟩
  exact run_turn_budget.2.2.2 produce0 true 1 0 s0 (by decide)

/-- Claim C8 (amended): after a *streamed* turn's deltas are merged, an
empty reconstructed tool-call list is normalized to `none`, and a message
without tool calls ends the loop (`Done`); the *non-streamed* entry point,
however, performs no such normalization: an assistant message carrying an
empty tool-call array there leads to an empty dispatch (appending nothing)
and the loop continues instead of transitioning to `Done`. -/
theorem empty_toolcalls_normalized :
    (∀ (parse : String → JVal) (agent0 : Agent) (deltas : List Delta),
      (deltas.foldl mergeChunk (initAcc agent0)).tool_calls.getD [] = [] →
      (finalizeStream parse agent0 deltas).tool_calls = none)
    ∧ (∀ (produce : Agent → List Msg → List (String × JVal) → Msg) (e : Bool) (s : LoopState),
        (produce s.active_agent s.history s.ctx_vars).tool_calls = none →
        runTurn produce e s
          = (LoopState.mk s.active_agent
              (s.history ++ [produce s.active_agent s.history s.ctx_vars])
              s.ctx_vars (s.turns + 1), false))
    ∧ (∀ (produce : Agent → List Msg → List (String × JVal) → Msg) (s : LoopState),
        (produce s.active_agent s.history s.ctx_vars).tool_calls = some [] →
        runTurn produce true s
          = (LoopState.mk s.active_agent
              (s.history ++ [produce s.active_agent s.history s.ctx_vars])
              s.ctx_vars (s.turns + 1), true)) := by
  refine ⟨?_, ?_, ?_⟩
  · intro parse agent0 deltas hempty
    simp [finalizeStream, hempty]
  · intro produce e s hm
    unfold runTurn
    simp [hm]
  · intro produce s hm
    unfold runTurn
    simp [hm, handleToolCalls, objectAssign_nil]

theorem empty_toolcalls_normalized_witness :
    (finalizeStream parse0 ag0 [{ role? := none, tool_calls? := some [], fields := [] }]).tool_calls
      = none
    ∧ runTurn (nsProduce emptyArrOracle) true s0
      = (LoopState.mk s0.active_agent
          (s0.history ++ [nsProduce emptyArrOracle s0.active_agent s0.history s0.ctx_vars])
          s0.ctx_vars (s0.turns + 1), true) := by
  constructor
  · refine empty_toolcalls_normalized.1 parse0 ag0 _ ?_
    simp [mergeChunk, initAcc, applyToolCallDelta]
  · exact empty_toolcalls_normalized.2.2 (nsProduce emptyArrOracle) s0 rfl

/-- Claim C8 counterexample: with the backend always answering with an
*empty tool-call array*, the non-streamed `run` with turn budget 2 executes
2 turns — the empty array is *not* treated like an absent tool-call list,
which (as the runs with `none` and with a streamed empty list show) ends
the run after 1 turn. -/
theorem empty_toolcalls_counterexample :
    (run emptyArrOracle ag0 [] [] true 2).turns = 2
    ∧ (run noToolOracle ag0 [] [] true 2).turns = 1
    ∧ (runStream parse0 emptyTCDeltaOracle ag0 [] [] true 2).turns = 1 := by
  refine ⟨?_, ?_, ?_⟩
  · simp [run, runLoop.eq_def, runTurn, nsProduce, emptyArrOracle, handleToolCalls,
      objectAssign_nil]
  · simp [run, runLoop.eq_def, runTurn, nsProduce, noToolOracle]
  · simp [runStream, runLoop.eq_def, runTurn, finalizeStream, mergeChunk, initAcc,
      emptyTCDeltaOracle, parse0, strField, getKey, mergeFields, applyToolCallDelta]

theorem runLoopH_frame (p : Agent → List Msg → List (String × JVal) → Msg)
    (e : Bool) (m i hRef cRef : Nat) :
    ∀ (agent : Agent) (heap : JSHeap),
      (∀ r, r ≠ hRef → ((runLoopH p e m i hRef cRef agent heap).2).arrs r = heap.arrs r)
      ∧ (∀ o, o ≠ cRef → ((runLoopH p e m i hRef cRef agent heap).2).objs o = heap.objs o) := by
  have main : ∀ (n : Nat) (agent : Agent) (heap : JSHeap),
      (i + m) - (heap.arrs hRef).length ≤ n →
      (∀ r, r ≠ hRef → ((runLoopH p e m i hRef cRef agent heap).2).arrs r = heap.arrs r)
      ∧ (∀ o, o ≠ cRef → ((runLoopH p e m i hRef cRef agent heap).2).objs o = heap.objs o) := by
    intro n
    induction n with
    | zero =>
      intro agent heap hn
      rw [runLoopH.eq_def]
      rw [if_neg (by omega : ¬ (heap.arrs hRef).length - i < m)]
      exact ⟨fun r _ => rfl, fun o _ => rfl⟩
    | succ n ihn =>
      intro agent heap hn
      rw [runLoopH.eq_def]
      by_cases hg : (heap.arrs hRef).length - i < m
      · rw [if_pos hg]
        rcases hm : (p agent (heap.arrs hRef) (heap.objs cRef)).tool_calls with _ | tcs
        · simp only [hm]
          constructor
          · intro r hr
            simp [JSHeap.pushArr, hr]
          · intro o ho
            simp [JSHeap.pushArr]
        · simp only [hm]
          by_cases he : e = false
          · simp only [he, if_pos rfl]
            constructor
            · intro r hr
              simp [JSHeap.pushArr, hr]
            · intro o ho
              simp [JSHeap.pushArr]
          · simp only [if_neg he]
            have hrec := ihn
              ((handleToolCalls tcs agent.functions
                  ((heap.pushArr hRef [p agent (heap.arrs hRef) (heap.objs cRef)]).objs cRef)).agent.getD
                agent)
              (((heap.pushArr hRef [p agent (heap.arrs hRef) (heap.objs cRef)]).pushArr hRef
                  (handleToolCalls tcs agent.functions
                    ((heap.pushArr hRef [p agent (heap.arrs hRef) (heap.objs cRef)]).objs cRef)).messages).assignObj
                cRef
                (handleToolCalls tcs agent.functions
                    ((heap.pushArr hRef [p agent (heap.arrs hRef) (heap.objs cRef)]).objs cRef)).context_variables)
              (by simp [JSHeap.pushArr, JSHeap.assignObj]; omega)
            constructor
            · intro r hr
              rw [hrec.1 r hr]
              simp [JSHeap.pushArr, JSHeap.assignObj, hr]
            · intro o ho
              rw [hrec.2 o ho]
              simp [JSHeap.pushArr, JSHeap.assignObj, ho]
      · rw [if_neg hg]
        exact ⟨fun r _ => rfl, fun o _ => rfl⟩
  intro agent heap
  exact main ((i + m) - (heap.arrs hRef).length) agent heap (le_refl _)

/-- Claim C9: at the reference level (both entry points, via `produce`),
a run `cloneDeep`s the caller's messages array and context object into
fresh allocations at entry and thereafter reads and writes history and
shared context only through its own references, so the caller's cells are
unchanged after the run. -/
theorem run_no_caller_mutation
    (produce : Agent → List Msg → List (String × JVal) → Msg)
    (execute_tools : Bool) (max_turns : Nat) (agent : Agent)
    (msgsRef ctxRef : Nat) (heap : JSHeap)
    (hm : msgsRef < heap.nextArr) (hc : ctxRef < heap.nextObj) :
    ((runH produce execute_tools max_turns agent msgsRef ctxRef heap).2).arrs msgsRef
      = heap.arrs msgsRef
    ∧ ((runH produce execute_tools max_turns agent msgsRef ctxRef heap).2).objs ctxRef
      = heap.objs ctxRef := by
  rcases heap with ⟨arrs, objs, nA, nO⟩
  simp only [JSHeap.nextArr] at hm
  simp only [JSHeap.nextObj] at hc
  simp only [runH, JSHeap.allocArr, JSHeap.allocObj]
  constructor
  · rw [(runLoopH_frame produce execute_tools max_turns _ _ _ _ _).1 msgsRef (by omega)]
    simp
  · rw [(runLoopH_frame produce execute_tools max_turns _ _ _ _ _).2 ctxRef (by omega)]
    simp

theorem enumTail_ok_eq (v : JVal) (p : ParameterSchema) (path : String) (w : JVal)
    (h : enumTail v p path = .ok w) : w = v := by
  unfold enumTail at h
  rcases he : p.enum with _ | vs
  · simp only [he] at h
    cases h
    rfl
  · simp only [he] at h
    by_cases hin : vs.any (fun e => jvalEqb e v) = true
    · rw [if_pos hin] at h
      cases h
      rfl
    · rw [if_neg hin] at h
      cases h

theorem valid_ok_eq_main : ∀ (n : Nat),
    (∀ (v : JVal) (p : ParameterSchema) (path : String) (w : JVal), sizeOf v ≤ n →
       validateValue v p path = .ok w → w = v)
    ∧ (∀ (xs : List JVal) (it : ParameterSchema) (path : String) (i : Nat) (ws : List JVal),
       sizeOf xs ≤ n → validateItems xs it path i = .ok ws → ws = xs)
    ∧ (∀ (props : List (String × ParameterSchema)) (fields : List (String × JVal))
         (path : String) (ws : List (String × JVal)), sizeOf fields ≤ n →
       validateProps props fields path = .ok ws → ws = fields) := by
  intro n
  induction n using Nat.strong_induction_on with
  | _ n ih =>
    refine ⟨?_, ?_, ?_⟩
    · intro v p path w hsz h
      cases v with
      | arr xs =>
        simp only [validateValue, jsActualType] at h
        by_cases ht : strToLower p.type = "array"
        · rw [if_pos ht] at h
          rcases hits : p.items with _ | it
          · simp only [hits] at h
            exact enumTail_ok_eq _ _ _ _ h
          · simp only [hits] at h
            rcases hvi : validateItems xs it path 0 with e | ws
            · simp [hvi, Except.map] at h
            · simp only [hvi, Except.map, Except.ok.injEq] at h
              subst h
              have hx : sizeOf xs < n := by
                have := @JVal.arr.sizeOf_spec xs
                omega
              rw [(ih (sizeOf xs) hx).2.1 xs it path 0 ws (le_refl _) hvi]
        · rw [if_neg ht] at h
          cases h
      | obj fields =>
        simp only [validateValue, jsActualType] at h
        by_cases ht : strToLower p.type = "object"
        · rw [if_pos ht] at h
          rcases hps : p.properties with _ | props
          · simp only [hps] at h
            exact enumTail_ok_eq _ _ _ _ h
          · simp only [hps] at h
            rcases hcr : checkRequired props fields path with e | u
            · simp [hcr] at h
            · simp only [hcr] at h
              rcases hvp : validateProps props fields path with e | ws
              · simp [hvp, Except.map] at h
              · simp only [hvp, Except.map, Except.ok.injEq] at h
                subst h
                have hx : sizeOf fields < n := by
                  have := @JVal.obj.sizeOf_spec fields
                  omega
                rw [(ih (sizeOf fields) hx).2.2 props fields path ws (le_refl _) hvp]
        · rw [if_neg ht] at h
          cases h
      | null =>
        simp only [validateValue, jsActualType] at h
        by_cases ht : strToLower p.type = "object"
        · rw [if_pos ht] at h
          rcases hps : p.properties with _ | props
          · simp only [hps] at h
            exact enumTail_ok_eq _ _ _ _ h
          · simp only [hps] at h
            rcases hfr : props.find? (fun kv => kv.2.required) with _ | kv
            · simp [hfr] at h
            · simp [hfr] at h
        · rw [if_neg ht] at h
          cases h
      | str s =>
        simp only [validateValue, jsActualType] at h
        by_cases ht : strToLower p.type = "string"
        · rw [if_pos ht] at h
          exact enumTail_ok_eq _ _ _ _ h
        · rw [if_neg ht] at h
          cases h
      | num m =>
        simp only [validateValue, jsActualType] at h
        by_cases ht : strToLower p.type = "number"
        · rw [if_pos ht] at h
          exact enumTail_ok_eq _ _ _ _ h
        · rw [if_neg ht] at h
          cases h
      | bool b =>
        simp only [validateValue, jsActualType] at h
        by_cases ht : strToLower p.type = "boolean"
        · rw [if_pos ht] at h
          exact enumTail_ok_eq _ _ _ _ h
        · rw [if_neg ht] at h
          cases h
    · intro xs it path i ws hsz h
      cases xs with
      | nil =>
        simp only [validateItems] at h
        cases h
        rfl
      | cons x rest =>
        simp only [validateItems] at h
        rcases hv : validateValue x it (path ++ "[" ++ toString i ++ "]") with e | v1
        · simp [hv] at h
        · simp only [hv] at h
          rcases hrec : validateItems rest it path (i + 1) with e | vs
          · simp [hrec] at h
          · simp only [hrec] at h
            cases h
            have hsc := @List.cons.sizeOf_spec JVal _ x rest
            have hx : sizeOf x < n := by omega
            have hr : sizeOf rest < n := by omega
            rw [(ih (sizeOf x) hx).1 x it _ v1 (le_refl _) hv,
              (ih (sizeOf rest) hr).2.1 rest it path (i + 1) vs (le_refl _) hrec]
    · intro props fields path ws hsz h
      cases fields with
      | nil =>
        simp only [validateProps] at h
        cases h
        rfl
      | cons kv rest =>
        rcases kv with ⟨k, v⟩
        simp only [validateProps] at h
        have hsc := @List.cons.sizeOf_spec (String × JVal) _ (k, v) rest
        have hsp : sizeOf ((k, v) : String × JVal) = 1 + sizeOf k + sizeOf v := rfl
        rcases hgp : getProp props k with _ | ps
        · simp only [hgp] at h
          rcases hrec : validateProps props rest path with e | ws2
          · simp [hrec] at h
          · simp only [hrec] at h
            cases h
            have hr : sizeOf rest < n := by omega
            rw [(ih (sizeOf rest) hr).2.2 props rest path ws2 (le_refl _) hrec]
        · simp only [hgp] at h
          rcases hv : validateValue v ps (if path = "" then k else path ++ "." ++ k) with e | v1
          · simp [hv] at h
          · simp only [hv] at h
            rcases hrec : validateProps props rest path with e | ws2
            · simp [hrec] at h
            · simp only [hrec] at h
              cases h
              have hx : sizeOf v < n := by omega
              have hr : sizeOf rest < n := by omega
              rw [(ih (sizeOf v) hx).1 v ps _ v1 (le_refl _) hv,
                (ih (sizeOf rest) hr).2.2 props rest path ws2 (le_refl _) hrec]

theorem validateValue_ok_eq (v : JVal) (p : ParameterSchema) (path : String) (w : JVal)
    (h : validateValue v p path = .ok w) : w = v :=
  (valid_ok_eq_main (sizeOf v)).1 v p path w (le_refl _) h

theorem checkRequired_first_missing (props : List (String × ParameterSchema))
    (fields : List (String × JVal)) (path : String)
    (h : ∃ k s, (k, s) ∈ props ∧ s.required = true ∧ getKey fields k = none) :
    ∃ k₀ s₀, (k₀, s₀) ∈ props ∧ s₀.required = true ∧ getKey fields k₀ = none
      ∧ checkRequired props fields path
        = .error ("Missing required property at \x27"
            ++ (if path = "" then "" else path ++ ".") ++ k₀ ++ "\x27") := by
  induction props with
  | nil =>
    obtain ⟨k, s, hmem, _, _⟩ := h
    simp at hmem
  | cons hd rest ih =>
    rcases hd with ⟨k', s'⟩
    by_cases hks : s'.required = true ∧ getKey fields k' = none
    · refine ⟨k', s', List.mem_cons_self _ _, hks.1, hks.2, ?_⟩
      rw [checkRequired]
      rw [if_pos (by simp [hks.1, hks.2])]
    · obtain ⟨k, s, hmem, hreq, hnone⟩ := h
      rcases List.mem_cons.mp hmem with heq | hrest
      · exfalso
        apply hks
        have hk : k = k' := congrArg Prod.fst heq
        have hs : s = s' := congrArg Prod.snd heq
        subst hk
        subst hs
        exact ⟨hreq, hnone⟩
      · obtain ⟨k₀, s₀, hm₀, hr₀, hn₀, hcr⟩ := ih ⟨k, s, hrest, hreq, hnone⟩
        refine ⟨k₀, s₀, List.mem_cons_of_mem _ hm₀, hr₀, hn₀, ?_⟩
        rw [checkRequired]
        rw [if_neg ?_, hcr]
        intro hcond
        rcases Bool.and_eq_true_iff.mp hcond with ⟨h1, h2⟩
        exact hks ⟨h1, Option.isNone_iff_eq_none.mp h2⟩

/-- Claim C5: arguments accepted by `validate` are returned unchanged in
value (the object branch rebuilds the object, but the rebuilt value is
extensionally the input); and when a declared required parameter is omitted
from an argument mapping, validation fails with a missing-required-property
error naming the (first) missing parameter's path, wrapped with the
function's name. -/
theorem validateArguments_spec :
    (∀ (args : JVal) (d : FunctionDescriptor) (w : JVal),
        validateArguments args d = .ok w → w = args)
    ∧ (∀ (d : FunctionDescriptor) (fields : List (String × JVal))
          (k : String) (s : ParameterSchema),
        (k, s) ∈ d.parameters → s.required = true → getKey fields k = none →
        ∃ k₀ s₀, (k₀, s₀) ∈ d.parameters ∧ s₀.required = true ∧ getKey fields k₀ = none
          ∧ validateArguments (.obj fields) d
            = .error ("Validation failed for function \x27" ++ d.name ++ "\x27: "
                ++ ("Missing required property at \x27" ++ k₀ ++ "\x27"))) := by
  constructor
  · intro args d w h
    simp only [validateArguments] at h
    rcases hv : validateValue args
        (.mk "object" false "Root validation schema" none (some d.parameters) none) "" with e | v
    · simp [hv] at h
    · simp only [hv] at h
      cases h
      exact validateValue_ok_eq _ _ _ _ hv
  · intro d fields k s hmem hreq hnone
    obtain ⟨k₀, s₀, hm₀, hr₀, hn₀, hcr⟩ :=
      checkRequired_first_missing d.parameters fields "" ⟨k, s, hmem, hreq, hnone⟩
    refine ⟨k₀, s₀, hm₀, hr₀, hn₀, ?_⟩
    have hmsg : ("Missing required property at \x27"
        ++ (if ("" : String) = "" then "" else ("" : String) ++ ".") ++ k₀ ++ "\x27")
        = ("Missing required property at \x27" ++ k₀ ++ "\x27") := by
      simp
    have hvv : validateValue (.obj fields)
        (.mk "object" false "Root validation schema" none (some d.parameters) none) ""
        = .error ("Missing required property at \x27" ++ k₀ ++ "\x27") := by
      rw [hmsg] at hcr
      simp only [validateValue, jsActualType, ParameterSchema.type, ParameterSchema.properties]
      rw [if_pos (by decide : strToLower "object" = "object")]
      simp only [hcr]
    simp only [validateArguments]
    rw [hvv]

theorem validateArguments_spec_witness :
    (validateArguments (.obj [(("x" : String), JVal.num 3)]) descX = .ok (.obj [("x", JVal.num 3)])
      → (JVal.obj [("x", JVal.num 3)]) = .obj [("x", JVal.num 3)])
    ∧ ∃ k₀ s₀, (k₀, s₀) ∈ descX.parameters ∧ s₀.required = true ∧ getKey [] k₀ = none
        ∧ validateArguments (.obj []) descX
          = .error ("Validation failed for function \x27" ++ descX.name ++ "\x27: "
              ++ ("Missing required property at \x27" ++ k₀ ++ "\x27")) := by
  constructor
  · exact validateArguments_spec.1 (.obj [("x", JVal.num 3)]) descX (.obj [("x", JVal.num 3)])
  · exact validateArguments_spec.2 descX [] "x" (.mk "number" true "first" none none none)
      (by simp [descX]) rfl rfl

theorem run_no_caller_mutation_witness :
    ((runH produce0 true 1 ag0 0 0 heap0).2).arrs 0 = heap0.arrs 0
    ∧ ((runH produce0 true 1 ag0 0 0 heap0).2).objs 0 = heap0.objs 0 :=
  run_no_caller_mutation produce0 true 1 ag0 0 0 heap0 (by decide) (by decide)

theorem string_nil_append (s : String) : "" ++ s = s := rfl

theorem string_append_nil (s : String) : s ++ "" = s := by simp

theorem optOr_none {α : Type} (a : Option α) : optOr a none = a := by
  cases a <;> rfl

theorem strField_setKey_self (o : List (String × JVal)) (k s : String) :
    strField (setKey o k (.str s)) k = some s := by
  simp [strField, getKey_setKey_self]

theorem strField_setKey_other (o : List (String × JVal)) (k k' : String) (v : JVal)
    (h : k' ≠ k) : strField (setKey o k' v) k = strField o k := by
  simp [strField, getKey_setKey_other _ _ _ _ h]

theorem strField_mergeValueInto_other (t : List (String × JVal)) (k k' : String)
    (v : JVal) (h : k' ≠ k) :
    strField (mergeValueInto t k' v) k = strField t k := by
  cases v with
  | str s =>
    rcases hg : getKey t k' with _ | w
    · simp [mergeValueInto, hg, strField_setKey_other _ _ _ _ h]
    · rcases w <;> simp [mergeValueInto, hg, strField_setKey_other _ _ _ _ h]
  | obj o =>
    rcases hg : getKey t k' with _ | w
    · simp [mergeValueInto, hg, strField_setKey_other _ _ _ _ h]
    · rcases w <;> simp [mergeValueInto, hg, strField_setKey_other _ _ _ _ h]
  | arr xs => simp [mergeValueInto, strField_setKey_other _ _ _ _ h]
  | num n => simp [mergeValueInto]
  | bool b => simp [mergeValueInto]
  | null => simp [mergeValueInto]

theorem strField_mergeValueInto_str (t : List (String × JVal)) (k s : String) :
    strField (mergeValueInto t k (.str s)) k
      = some ((strField t k).getD "" ++ s) := by
  rcases hg : getKey t k with _ | w
  · simp [mergeValueInto, hg, strField, getKey_setKey_self, string_nil_append]
  · rcases w <;>
      simp [mergeValueInto, hg, strField, getKey_setKey_self, string_nil_append]

/-- The effect of merging a `function` fragment on the accumulated
`function.name`: a carried name fragment is concatenated onto the
accumulated name (initialized to `""`), anything else leaves it. -/
theorem strField_mergeFields_name (t : List (String × JVal)) (f : FnDelta) :
    strField (mergeFields t f.toObj) "name"
      = match f.name? with
        | some nf => some ((strField t "name").getD "" ++ nf)
        | none => strField t "name" := by
  have han : ("arguments" : String) ≠ "name" := by decide
  rcases f with ⟨n?, a?⟩
  rcases n? with _ | nf <;> rcases a? with _ | af <;>
    simp [FnDelta.toObj, mergeFields, strField_mergeValueInto_str,
      strField_mergeValueInto_other _ _ _ _ han]

/-- The symmetric fact for `function.arguments`. -/
theorem strField_mergeFields_args (t : List (String × JVal)) (f : FnDelta) :
    strField (mergeFields t f.toObj) "arguments"
      = match f.arguments? with
        | some af => some ((strField t "arguments").getD "" ++ af)
        | none => strField t "arguments" := by
  have hna : ("name" : String) ≠ "arguments" := by decide
  rcases f with ⟨n?, a?⟩
  rcases n? with _ | nf <;> rcases a? with _ | af <;>
    simp [FnDelta.toObj, mergeFields, strField_mergeValueInto_str,
      strField_mergeValueInto_other _ _ _ _ hna]

theorem slotId_applyToSlot (s : List (String × JVal)) (d : ToolCallDelta) :
    slotId (applyToSlot s d) = optOr d.id? (slotId s) := by
  have h1 : ∀ (o : List (String × JVal)) (v : JVal),
      strField (setKey o "function" v) "id" = strField o "id" :=
    fun o v => strField_setKey_other o "id" "function" v (by decide)
  have h2 : ∀ (o : List (String × JVal)) (v : JVal),
      strField (setKey o "type" v) "id" = strField o "id" :=
    fun o v => strField_setKey_other o "id" "type" v (by decide)
  rcases d with ⟨i, id?, ty?, fn?⟩
  rcases id? with _ | idv <;> rcases ty? with _ | tyv <;> rcases fn? with _ | f <;>
    simp [applyToSlot, slotId, optOr, h1, h2, strField_setKey_self]

theorem slotType_applyToSlot (s : List (String × JVal)) (d : ToolCallDelta) :
    slotType (applyToSlot s d) = optOr d.type? (slotType s) := by
  have h1 : ∀ (o : List (String × JVal)) (v : JVal),
      strField (setKey o "function" v) "type" = strField o "type" :=
    fun o v => strField_setKey_other o "type" "function" v (by decide)
  have h2 : ∀ (o : List (String × JVal)) (v : JVal),
      strField (setKey o "id" v) "type" = strField o "type" :=
    fun o v => strField_setKey_other o "type" "id" v (by decide)
  rcases d with ⟨i, id?, ty?, fn?⟩
  rcases id? with _ | idv <;> rcases ty? with _ | tyv <;> rcases fn? with _ | f <;>
    simp [applyToSlot, slotType, optOr, h1, h2, strField_setKey_self]

theorem getKey_fn_applyToSlot_none (s : List (String × JVal)) (i : Nat)
    (id? ty? : Option String) :
    getKey (applyToSlot s ⟨i, id?, ty?, none⟩) "function" = getKey s "function" := by
  have h1 : ∀ (o : List (String × JVal)) (v : JVal),
      getKey (setKey o "id" v) "function" = getKey o "function" :=
    fun o v => getKey_setKey_other o "function" "id" v (by decide)
  have h2 : ∀ (o : List (String × JVal)) (v : JVal),
      getKey (setKey o "type" v) "function" = getKey o "function" :=
    fun o v => getKey_setKey_other o "function" "type" v (by decide)
  rcases id? with _ | idv <;> rcases ty? with _ | tyv <;> simp [applyToSlot, h1, h2]

theorem slotFn_applyToSlot_fn (s : List (String × JVal)) (i : Nat)
    (id? ty? : Option String) (f : FnDelta) (h : SlotInv s) :
    slotFn (applyToSlot s ⟨i, id?, ty?, some f⟩)
      = some (mergeFields ((slotFn s).getD []) f.toObj) := by
  have h1 : ∀ (o : List (String × JVal)) (v : JVal),
      getKey (setKey o "id" v) "function" = getKey o "function" :=
    fun o v => getKey_setKey_other o "function" "id" v (by decide)
  have h2 : ∀ (o : List (String × JVal)) (v : JVal),
      getKey (setKey o "type" v) "function" = getKey o "function" :=
    fun o v => getKey_setKey_other o "function" "type" v (by decide)
  rcases h with hnone | ⟨o, hobj⟩
  · rcases id? with _ | idv <;> rcases ty? with _ | tyv <;>
      simp [applyToSlot, slotFn, h1, h2, hnone, getKey_setKey_self]
  · rcases id? with _ | idv <;> rcases ty? with _ | tyv <;>
      simp [applyToSlot, slotFn, h1, h2, hobj, getKey_setKey_self]

theorem slotInv_applyToSlot (s : List (String × JVal)) (d : ToolCallDelta)
    (h : SlotInv s) : SlotInv (applyToSlot s d) := by
  rcases d with ⟨i, id?, ty?, fn?⟩
  rcases fn? with _ | f
  · rw [SlotInv, getKey_fn_applyToSlot_none]
    exact h
  · right
    have := slotFn_applyToSlot_fn s i id? ty? f h
    rw [slotFn] at this
    rcases hg : getKey (applyToSlot s ⟨i, id?, ty?, some f⟩) "function" with _ | w
    · rw [hg] at this
      cases this
    · rcases w <;> rw [hg] at this <;> first
        | exact ⟨_, rfl⟩
        | cases this

theorem optOr_getLast_cons {α : Type} (a : α) (l : List α) (z : Option α) :
    optOr ((a :: l).getLast?) z = optOr l.getLast? (some a) := by
  rcases l with _ | ⟨x, xs⟩
  · simp [optOr]
  · rw [List.getLast?_cons_cons]
    rcases hgl : (x :: xs).getLast? with _ | w
    · simp at hgl
    · simp [optOr]

theorem slotId_foldl (ds : List ToolCallDelta) : ∀ s : List (String × JVal),
    slotId (ds.foldl applyToSlot s)
      = optOr ((ds.filterMap ToolCallDelta.id?).getLast?) (slotId s) := by
  induction ds with
  | nil =>
    intro s
    simp [optOr]
  | cons d rest ih =>
    intro s
    rw [List.foldl_cons, ih, slotId_applyToSlot]
    rcases hid : d.id? with _ | idv
    · simp [List.filterMap_cons, hid, optOr]
    · simp only [List.filterMap_cons, hid]
      rw [show optOr (some idv) (slotId s) = some idv from rfl]
      exact (optOr_getLast_cons idv _ _).symm

theorem slotType_foldl (ds : List ToolCallDelta) : ∀ s : List (String × JVal),
    slotType (ds.foldl applyToSlot s)
      = optOr ((ds.filterMap ToolCallDelta.type?).getLast?) (slotType s) := by
  induction ds with
  | nil =>
    intro s
    simp [optOr]
  | cons d rest ih =>
    intro s
    rw [List.foldl_cons, ih, slotType_applyToSlot]
    rcases hty : d.type? with _ | tyv
    · simp [List.filterMap_cons, hty, optOr]
    · simp only [List.filterMap_cons, hty]
      rw [show optOr (some tyv) (slotType s) = some tyv from rfl]
      exact (optOr_getLast_cons tyv _ _).symm

theorem slotInv_foldl (ds : List ToolCallDelta) : ∀ s : List (String × JVal),
    SlotInv s → SlotInv (ds.foldl applyToSlot s) := by
  induction ds with
  | nil =>
    intro s h
    exact h
  | cons d rest ih =>
    intro s h
    rw [List.foldl_cons]
    exact ih _ (slotInv_applyToSlot s d h)

theorem slotFnName_applyToSlot (s : List (String × JVal)) (d : ToolCallDelta)
    (h : SlotInv s) :
    slotFnName (applyToSlot s d)
      = match fragName d with
        | some nf => some ((slotFnName s).getD "" ++ nf)
        | none => slotFnName s := by
  rcases d with ⟨i, id?, ty?, fn?⟩
  rcases fn? with _ | f
  · simp [slotFnName, slotFn, getKey_fn_applyToSlot_none, fragName]
  · rw [slotFnName, slotFn_applyToSlot_fn s i id? ty? f h]
    have hfo : strField ((slotFn s).getD []) "name" = slotFnName s := by
      rcases hsf : slotFn s with _ | o
      · simp [slotFnName, hsf, strField, getKey]
      · simp [slotFnName, hsf]
    simp only [Option.some_bind]
    rw [strField_mergeFields_name, hfo]
    rcases f with ⟨n?, a?⟩
    rcases n? <;> simp [fragName, FnDelta.name?]

theorem slotFnArgs_applyToSlot (s : List (String × JVal)) (d : ToolCallDelta)
    (h : SlotInv s) :
    slotFnArgs (applyToSlot s d)
      = match fragArgs d with
        | some af => some ((slotFnArgs s).getD "" ++ af)
        | none => slotFnArgs s := by
  rcases d with ⟨i, id?, ty?, fn?⟩
  rcases fn? with _ | f
  · simp [slotFnArgs, slotFn, getKey_fn_applyToSlot_none, fragArgs]
  · rw [slotFnArgs, slotFn_applyToSlot_fn s i id? ty? f h]
    have hfo : strField ((slotFn s).getD []) "arguments" = slotFnArgs s := by
      rcases hsf : slotFn s with _ | o
      · simp [slotFnArgs, hsf, strField, getKey]
      · simp [slotFnArgs, hsf]
    simp only [Option.some_bind]
    rw [strField_mergeFields_args, hfo]
    rcases f with ⟨n?, a?⟩
    rcases a? <;> simp [fragArgs, FnDelta.arguments?]

theorem slotFnName_foldl (ds : List ToolCallDelta) : ∀ s : List (String × JVal),
    SlotInv s →
    slotFnName (ds.foldl applyToSlot s)
      = (if ds.filterMap fragName = [] then slotFnName s
         else some ((slotFnName s).getD "" ++ concatAll (ds.filterMap fragName))) := by
  induction ds with
  | nil =>
    intro s h
    simp
  | cons d rest ih =>
    intro s h
    rw [List.foldl_cons, ih _ (slotInv_applyToSlot s d h), slotFnName_applyToSlot s d h]
    rcases hf : fragName d with _ | nf
    · simp only [List.filterMap_cons, hf]
    · simp only [List.filterMap_cons, hf]
      rcases hrm : rest.filterMap fragName with _ | ⟨x, xs⟩
      · simp [concatAll, string_append_nil]
      · rw [if_neg (by simp), if_neg (by simp)]
        simp [concatAll, String.append_assoc]

theorem slotFnArgs_foldl (ds : List ToolCallDelta) : ∀ s : List (String × JVal),
    SlotInv s →
    slotFnArgs (ds.foldl applyToSlot s)
      = (if ds.filterMap fragArgs = [] then slotFnArgs s
         else some ((slotFnArgs s).getD "" ++ concatAll (ds.filterMap fragArgs))) := by
  induction ds with
  | nil =>
    intro s h
    simp
  | cons d rest ih =>
    intro s h
    rw [List.foldl_cons, ih _ (slotInv_applyToSlot s d h), slotFnArgs_applyToSlot s d h]
    rcases hf : fragArgs d with _ | af
    · simp only [List.filterMap_cons, hf]
    · simp only [List.filterMap_cons, hf]
      rcases hrm : rest.filterMap fragArgs with _ | ⟨x, xs⟩
      · simp [concatAll, string_append_nil]
      · rw [if_neg (by simp), if_neg (by simp)]
        simp [concatAll, String.append_assoc]

theorem lookupIdx_insertIdx_self (m : List (Nat × List (String × JVal))) (i : Nat)
    (s : List (String × JVal)) : lookupIdx (insertIdx m i s) i = some s := by
  induction m with
  | nil => simp [insertIdx, lookupIdx]
  | cons kv rest ih =>
    rcases kv with ⟨j, s'⟩
    by_cases hj : j = i
    · simp [insertIdx, hj, lookupIdx]
    · by_cases hij : i < j
      · simp [insertIdx, hj, hij, lookupIdx]
      · simp [insertIdx, hj, hij, lookupIdx, ih]

theorem lookupIdx_insertIdx_other (m : List (Nat × List (String × JVal))) (j : Nat)
    (s : List (String × JVal)) (i : Nat) (h : j ≠ i) :
    lookupIdx (insertIdx m j s) i = lookupIdx m i := by
  induction m with
  | nil => simp [insertIdx, lookupIdx, h]
  | cons kv rest ih =>
    rcases kv with ⟨j', s'⟩
    by_cases hj : j' = j
    · subst hj
      simp [insertIdx, lookupIdx, h]
    · by_cases hij : j < j'
      · simp [insertIdx, hj, hij, lookupIdx, h]
      · by_cases hj'i : j' = i
        · subst hj'i
          simp [insertIdx, hj, hij, lookupIdx]
        · simp [insertIdx, hj, hij, lookupIdx, hj'i, ih]

theorem lookupIdx_foldl (frags : List ToolCallDelta) :
    ∀ (tcs : List (Nat × List (String × JVal))) (i : Nat),
    lookupIdx (frags.foldl applyToolCallDelta tcs) i
      = (frags.filter (fun d => d.index = i)).foldl
          (fun s? d => some (applyToSlot (s?.getD []) d)) (lookupIdx tcs i) := by
  induction frags with
  | nil =>
    intro tcs i
    simp
  | cons d rest ih =>
    intro tcs i
    rw [List.foldl_cons, ih]
    by_cases hdi : d.index = i
    · rw [List.filter_cons_of_pos (by simp [hdi])]
      rw [List.foldl_cons]
      rw [show applyToolCallDelta tcs d
          = insertIdx tcs d.index (applyToSlot ((lookupIdx tcs d.index).getD []) d) from rfl]
      rw [hdi, lookupIdx_insertIdx_self]
    · rw [List.filter_cons_of_neg (by simp [hdi])]
      rw [show applyToolCallDelta tcs d
          = insertIdx tcs d.index (applyToSlot ((lookupIdx tcs d.index).getD []) d) from rfl]
      rw [lookupIdx_insertIdx_other _ _ _ _ hdi]

theorem optFold_some (l : List ToolCallDelta) : ∀ s : List (String × JVal),
    l.foldl (fun s? d => some (applyToSlot (s?.getD []) d)) (some s)
      = some (l.foldl applyToSlot s) := by
  induction l with
  | nil =>
    intro s
    rfl
  | cons d rest ih =>
    intro s
    rw [List.foldl_cons, List.foldl_cons]
    exact ih (applyToSlot s d)

/-- Claim C1 counterexample: two fragments at index 0 carrying `id` values
`"a"` then `"b"` leave the slot's `id` as `"b"` — the value at the *last*
appearance, not the first as the claim states (shown at the `applyToSlot`
level and through `mergeChunk` itself). -/
theorem mergeChunk_toolcall_counterexample :
    slotId ([cxTc1, cxTc2].foldl applyToSlot []) = some "b"
    ∧ (some "b" : Option String) ≠ some "a"
    ∧ (([cxDelta1, cxDelta2].foldl mergeChunk (initAcc ag0)).tool_calls.getD []).map
        (fun kv => slotId kv.2) = [some "b"] := by
  refine ⟨rfl, by decide, ?_⟩
  simp [mergeChunk, applyToolCallDelta, applyToSlot, lookupIdx, insertIdx,
    mergeFields, mergeValueInto, setKey, getKey, initAcc, cxDelta1, cxDelta2,
    cxTc1, cxTc2, slotId, strField]

/-- Claim C1 (amended): the specification's two-fragment example merges to
one accumulated tool call at index 0 with `id "a"`, `function.name "ca"`
and `function.arguments` `\x7b"x":1\x7d`; in general, fragments sharing a
numeric index merge into the same slot (the slot at index `i` is exactly
the fold of the fragments carrying index `i`, in arrival order, and exists
iff one such fragment arrived); `id` and `type` are overwritten by each
fragment carrying them, so each equals its value at its *last* appearance
(the first, when it appears only once); and `function.name` /
`function.arguments` are built by concatenating the carried string
fragments in arrival order. -/
theorem mergeChunk_toolcall_merge :
    (([exDelta1, exDelta2].foldl mergeChunk (initAcc ag0)).tool_calls
      = some [(0, [("id", .str "a"),
          ("function", .obj [("name", .str "ca"),
            ("arguments", .str "\x7b\"x\":1\x7d")])])])
    ∧ (∀ (frags : List ToolCallDelta) (i : Nat),
        lookupIdx (frags.foldl applyToolCallDelta []) i
          = if frags.filter (fun d => d.index = i) = [] then none
            else some ((frags.filter (fun d => d.index = i)).foldl applyToSlot []))
    ∧ (∀ ds : List ToolCallDelta,
        slotId (ds.foldl applyToSlot []) = (ds.filterMap ToolCallDelta.id?).getLast?)
    ∧ (∀ ds : List ToolCallDelta,
        slotType (ds.foldl applyToSlot []) = (ds.filterMap ToolCallDelta.type?).getLast?)
    ∧ (∀ ds : List ToolCallDelta,
        slotFnName (ds.foldl applyToSlot [])
          = (if ds.filterMap fragName = [] then none
             else some (concatAll (ds.filterMap fragName))))
    ∧ (∀ ds : List ToolCallDelta,
        slotFnArgs (ds.foldl applyToSlot [])
          = (if ds.filterMap fragArgs = [] then none
             else some (concatAll (ds.filterMap fragArgs)))) := by
  refine ⟨?_, ?_, ?_, ?_, ?_, ?_⟩
  · simp [mergeChunk, applyToolCallDelta, applyToSlot, lookupIdx, insertIdx,
      mergeFields, mergeValueInto, FnDelta.toObj, setKey, getKey, initAcc,
      exDelta1, exDelta2, exTc1, exTc2, exFn1, exFn2]
  · intro frags i
    rw [lookupIdx_foldl]
    rw [show lookupIdx ([] : List (Nat × List (String × JVal))) i = none from rfl]
    rcases hfl : frags.filter (fun d => d.index = i) with _ | ⟨d, rest⟩
    · rw [hfl]
      simp
    · rw [hfl, if_neg (by simp)]
      rw [List.foldl_cons, optFold_some, List.foldl_cons]
      rfl
  · intro ds
    rw [slotId_foldl]
    rw [show slotId ([] : List (String × JVal)) = none from rfl]
    exact optOr_none _
  · intro ds
    rw [slotType_foldl]
    rw [show slotType ([] : List (String × JVal)) = none from rfl]
    exact optOr_none _
  · intro ds
    rw [slotFnName_foldl ds [] (Or.inl rfl)]
    rw [show slotFnName ([] : List (String × JVal)) = none from rfl]
    simp [string_nil_append]
  · intro ds
    rw [slotFnArgs_foldl ds [] (Or.inl rfl)]
    rw [show slotFnArgs ([] : List (String × JVal)) = none from rfl]
    simp [string_nil_append]

end Swarm
